import Mathlib

/-!
Shallow embedding of the score-based connection router
(`pkg/balance/router/router_score.go`) and proofs of the specified properties.

The doubly linked list of `*backendWrapper` is modelled as a `List`, and a Go
element pointer is modelled by the `uid` of the wrapper it designates: every
wrapper ever allocated receives a distinct uid, so a mutation through a pointer
whose wrapper has been removed from the list (Go mutates an unreachable heap
object) has no observable effect in the model either.
-/

namespace TiproxyRouter

/-- Health status of a backend (`observer.BackendStatus`). -/
inductive BackendStatus where
  | Healthy
  | CannotConnect
  | SchemaOutdated
deriving DecidableEq, Repr

/-- Modelled from the spec: `BackendHealth` (defined in the observer package,
outside the sources) carries a status, a server version string and an optional
ping error; error identity is modelled as a number. -/
structure BackendHealth where
  status : BackendStatus
  serverVersion : String
  pingErr : Option Nat
deriving DecidableEq, Repr

/-- Redirect phase of a connection (`phaseNotRedirected`, `phaseRedirectNotify`,
`phaseRedirectFail`, `phaseRedirectEnd`). -/
inductive ConnPhase where
  | NotRedirected
  | RedirectNotify
  | RedirectFail
  | RedirectEnd
deriving DecidableEq, Repr

/-- One backend of the router (`backendWrapper`, declared outside the sources;
its fields are those the router code and the spec use). `uid` models Go pointer
identity, `connList` holds the ids of the attached connections. -/
structure BackendWrapper where
  uid : Nat
  addr : String
  health : BackendHealth
  connList : List Nat
  connScore : Int
deriving DecidableEq, Repr

/-- Modelled from the spec: `score(b) = len(b.connList) + b.connScore`. -/
def score (b : BackendWrapper) : Int := b.connList.length + b.connScore

/-- Modelled from the spec: two healths are equal iff status, version and error
identity all match (`backendWrapper.Equals`). -/
def equalsHealth (b : BackendWrapper) (h : BackendHealth) : Bool := decide (b.health = h)

/-- `backendWrapper.setHealth`. -/
def setHealth (b : BackendWrapper) (h : BackendHealth) : BackendWrapper := { b with health := h }

/-- Mutable state of a `connWrapper`: phase, time of the last redirect and the
in-flight redirect target (`redirectingBackend`), modelled as the target
wrapper's uid paired with its (immutable) address. -/
structure ConnInfo where
  phase : ConnPhase
  lastRedirect : Nat
  redirecting : Option (Nat × String)
deriving DecidableEq, Repr

/-- The router state guarded by the mutex: the score-ordered backend list, the
registered connections, the latched observe error, the reported server version,
whether an observer was attached by `Init`, and the next fresh wrapper uid. -/
structure RouterState where
  backends : List BackendWrapper
  conns : List (Nat × ConnInfo)
  observeError : Option Nat
  serverVersion : String
  hasObserver : Bool
  nextUid : Nat
deriving DecidableEq, Repr

/-- `removeBackendIfEmpty`: a backend that cannot be connected to and neither
holds nor expects connections is dropped from the list. -/
def removeBackendIfEmpty (b : BackendWrapper) : Bool :=
  decide (b.health.status = .CannotConnect) && decide (b.connList.length = 0) &&
    decide (b.connScore ≤ 0)

/-- Core of `adjustBackendList`: `b` sits between `pre` and `post`. Scan toward
the head over the contiguous run of predecessors with strictly smaller score and
move before the furthest one; otherwise scan toward the tail over the contiguous
run of successors with strictly larger score and move after the furthest one. -/
def adjustAt (pre : List BackendWrapper) (b : BackendWrapper) (post : List BackendWrapper) :
    List BackendWrapper :=
  let tw := pre.reverse.takeWhile (fun x => decide (score x < score b))
  if tw.isEmpty then
    let td := post.takeWhile (fun x => decide (score b < score x))
    let dd := post.dropWhile (fun x => decide (score b < score x))
    pre ++ td ++ b :: dd
  else
    let dw := pre.reverse.dropWhile (fun x => decide (score x < score b))
    dw.reverse ++ b :: (tw.reverse ++ post)

/-- `adjustBackendList(be, removeEmpty)` on the decomposed list. -/
def adjustBackendList (pre : List BackendWrapper) (b : BackendWrapper)
    (post : List BackendWrapper) (removeEmpty : Bool) : List BackendWrapper :=
  if removeEmpty && removeBackendIfEmpty b then pre ++ post
  else adjustAt pre b post

/-- Resolve a Go element pointer: the first wrapper with the given uid, together
with the list split around it. -/
def splitByUid : List BackendWrapper → Nat →
    Option (List BackendWrapper × BackendWrapper × List BackendWrapper)
  | [], _ => none
  | b :: l, u =>
    if b.uid = u then some ([], b, l)
    else
      match splitByUid l u with
      | some (pre, x, post) => some (b :: pre, x, post)
      | none => none

/-- `lookupBackend(addr, forward)`: find a backend by address scanning forward or
backward; returns the uid of the wrapper found. -/
def lookupBackend (l : List BackendWrapper) (addr : String) (forward : Bool) : Option Nat :=
  if forward then (l.find? (fun b => decide (b.addr = addr))).map (·.uid)
  else (l.reverse.find? (fun b => decide (b.addr = addr))).map (·.uid)

/-- The pervasive mutate-then-adjust pattern: rewrite the wrapper designated by
`u` through `f`, then `adjustBackendList`. A pointer to a wrapper that is no
longer in the list mutates an unreachable object: no effect. -/
def updateAdjust (s : RouterState) (u : Nat) (f : BackendWrapper → BackendWrapper)
    (removeEmpty : Bool) : RouterState :=
  match splitByUid s.backends u with
  | some (pre, b, post) => { s with backends := adjustBackendList pre (f b) post removeEmpty }
  | none => s

/-- A bare field write through a pointer with no re-sort
(as in `redirectingBackend.connScore--`). -/
def updateNoAdjust (s : RouterState) (u : Nat) (f : BackendWrapper → BackendWrapper) :
    RouterState :=
  match splitByUid s.backends u with
  | some (pre, b, post) => { s with backends := pre ++ f b :: post }
  | none => s

/-- `adjustBackendList` alone on the wrapper designated by `u`. -/
def adjustOnly (s : RouterState) (u : Nat) (removeEmpty : Bool) : RouterState :=
  updateAdjust s u id removeEmpty

/-- The conn-wrapper store: Go reaches a `connWrapper` through the element handle
stashed in the connection; the model keys it by connection id. -/
def getConn (conns : List (Nat × ConnInfo)) (c : Nat) : Option ConnInfo :=
  (conns.find? (fun p => decide (p.1 = c))).map Prod.snd

/-- Write a connection's wrapper state. -/
def setConn (conns : List (Nat × ConnInfo)) (c : Nat) (i : ConnInfo) : List (Nat × ConnInfo) :=
  (c, i) :: conns.filter (fun p => decide (¬ p.1 = c))

/-- The defensive wrapper `ensureBackend` allocates: fresh uid, the given
address, zero-valued `CannotConnect` health, no connections, zero score. -/
def freshWrapper (n : Nat) (addr : String) : BackendWrapper :=
  { uid := n, addr := addr
    health := { status := .CannotConnect, serverVersion := "", pingErr := none }
    connList := [], connScore := 0 }

/-- `ensureBackend(addr, forward)`: look the address up; when missing, warn and
defensively insert a fresh wrapper with `CannotConnect` health at the front, then
adjust with `removeEmpty = false`. Returns the state and the uid of the wrapper. -/
def ensureBackend (s : RouterState) (addr : String) (forward : Bool) : RouterState × Nat :=
  match lookupBackend s.backends addr forward with
  | some u => (s, u)
  | none =>
    ({ s with
        backends := adjustAt [] (freshWrapper s.nextUid addr) s.backends,
        nextUid := s.nextUid + 1 }, s.nextUid)

/-- `addConn`: push the connection onto the backend's conn list and adjust. -/
def addConnOp (s : RouterState) (u : Nat) (c : Nat) : RouterState :=
  updateAdjust s u (fun b => { b with connList := b.connList ++ [c] }) false

/-- `removeConn`: drop the connection from the backend's conn list (a no-op when
the element belongs to another list, as in Go) and adjust with removal. -/
def removeConnOp (s : RouterState) (u : Nat) (c : Nat) : RouterState :=
  updateAdjust s u (fun b => { b with connList := b.connList.erase c }) true

/-- Selection test of `routeOnce`: the status switch skips `CannotConnect` and
`SchemaOutdated` (of the three statuses only `Healthy` passes), then the
exclusion list is consulted. -/
def qualifies (b : BackendWrapper) (excluded : List String) : Bool :=
  decide (b.health.status = .Healthy) && !(excluded.contains b.addr)

/-- Split the list at the first qualifying backend counting from the tail
(the `for be := router.backends.Back(); ...; be = be.Prev()` scan). -/
def pickLast (l : List BackendWrapper) (excluded : List String) :
    Option (List BackendWrapper × BackendWrapper × List BackendWrapper) :=
  match l with
  | [] => none
  | b :: rest =>
    match pickLast rest excluded with
    | some (pre, x, post) => some (b :: pre, x, post)
    | none => if qualifies b excluded then some ([], b, rest) else none

/-- Result of `routeOnce`: the latched observe error, `ErrNoBackend`, or the
chosen backend. -/
inductive RouteResult where
  | observeErr (e : Nat)
  | noBackend
  | found (b : BackendWrapper)
deriving DecidableEq, Repr

/-- `routeOnce(excluded)` (`Selector.Next`): surface a latched observe error;
otherwise scan from the tail for the first healthy non-excluded backend, bump its
`connScore` and adjust (no removal); otherwise request `observer.Refresh()` when
an observer is attached and fail with `ErrNoBackend`. The `Bool` records whether
the refresh was requested. -/
def routeOnce (s : RouterState) (excluded : List String) : RouteResult × Bool × RouterState :=
  match s.observeError with
  | some e => (.observeErr e, false, s)
  | none =>
    match pickLast s.backends excluded with
    | some (pre, b, post) =>
      let b' := { b with connScore := b.connScore + 1 }
      (.found b', false, { s with backends := adjustAt pre b' post })
    | none => (.noBackend, s.hasObserver, s)

/-- `onCreateConn` (`Selector.Finish`): on success attach a fresh conn wrapper to
the chosen backend; on failure roll the `connScore` reservation back. -/
def onCreateConn (s : RouterState) (addr : String) (c : Nat) (succeed : Bool) : RouterState :=
  let p := ensureBackend s addr true
  if succeed then
    let s2 := { p.1 with conns := setConn p.1.conns c ⟨.NotRedirected, 0, none⟩ }
    addConnOp s2 p.2 c
  else
    updateAdjust p.1 p.2 (fun b => { b with connScore := b.connScore - 1 }) true

/-- `onRedirectFinished(from, to, conn, succeed)`. The `none` result models the
Go panic on the stored-element type assertion when the connection was never
registered by a successful `Finish`. -/
def onRedirectFinished (s : RouterState) (fromAddr toAddr : String) (c : Nat) (succeed : Bool) :
    Option RouterState :=
  let p1 := ensureBackend s fromAddr true
  let p2 := ensureBackend p1.1 toAddr false
  match getConn p2.1.conns c with
  | none => none
  | some info =>
    if succeed then
      let s3 := removeConnOp p2.1 p1.2 c
      let s4 := addConnOp s3 p2.2 c
      some { s4 with
             conns := setConn s4.conns c { info with phase := .RedirectEnd, redirecting := none } }
    else
      let s3 := updateAdjust p2.1 p1.2 (fun b => { b with connScore := b.connScore + 1 }) false
      let s4 := updateAdjust s3 p2.2 (fun b => { b with connScore := b.connScore - 1 }) true
      some { s4 with
             conns := setConn s4.conns c { info with phase := .RedirectFail, redirecting := none } }

/-- `OnConnClosed(addr, conn)`: when a redirect is in flight release the reserved
score on the redirect target (a pointer write, then an adjust on the backend the
target's address resolves to), otherwise decrement the owner's score; then remove
the conn wrapper. `none` models the Go panic for an unregistered connection. -/
def OnConnClosed (s : RouterState) (addr : String) (c : Nat) : Option RouterState :=
  let p := ensureBackend s addr true
  match getConn p.1.conns c with
  | none => none
  | some info =>
    let s2 :=
      match info.redirecting with
      | some rb =>
        let sA := updateNoAdjust p.1 rb.1 (fun b => { b with connScore := b.connScore - 1 })
        let sB := { sA with conns := setConn sA.conns c { info with redirecting := none } }
        match lookupBackend sB.backends rb.2 true with
        | some lu => adjustOnly sB lu true
        | none => sB
      | none => updateNoAdjust p.1 p.2 (fun b => { b with connScore := b.connScore - 1 })
    some (removeConnOp s2 p.2 c)

/-- One entry of a health snapshot applied to the router: the body of the
`for addr, health := range backends` loop of `updateBackendHealth`. Also yields
the server version picked up by this entry, if any. -/
def applyHealth (s : RouterState) (addr : String) (h : BackendHealth) :
    RouterState × Option String :=
  match lookupBackend s.backends addr true with
  | none =>
    if h.status ≠ .CannotConnect then
      let b : BackendWrapper :=
        { uid := s.nextUid, addr := addr, health := h, connList := [], connScore := 0 }
      ({ s with backends := adjustAt s.backends b [], nextUid := s.nextUid + 1 },
       some h.serverVersion)
    else (s, none)
  | some u =>
    match splitByUid s.backends u with
    | some (pre, b, post) =>
      if equalsHealth b h then (s, none)
      else ({ s with backends := adjustBackendList pre (setHealth b h) post true },
            if h.status ≠ .CannotConnect then some h.serverVersion else none)
    | none => (s, none)

/-- A health snapshot (`HealthResult`): a global error, or a complete listing of
address and health. The Go map is modelled as an association list; properties
quantify over its order, which covers the nondeterministic map iteration. -/
structure HealthResult where
  err : Option Nat
  backends : List (String × BackendHealth)
deriving DecidableEq, Repr

/-- The synthetic `CannotConnect` entries injected for registered backends that
are absent from the snapshot ("removed from backend list"). -/
def syntheticEntries (l : List BackendWrapper) (keys : List String) :
    List (String × BackendHealth) :=
  l.filterMap (fun b =>
    if keys.contains b.addr then none
    else some (b.addr, { status := .CannotConnect, serverVersion := "", pingErr := some 0 }))

/-- One iteration of the snapshot loop, threading the picked-up server version
(the Go `serverVersion` local, last write wins). -/
def healthStep (acc : RouterState × String) (e : String × BackendHealth) :
    RouterState × String :=
  let p := applyHealth acc.1 e.1 e.2
  (p.1, p.2.getD acc.2)

/-- `updateBackendHealth(healthResults)`: latch the error; when clear, extend the
snapshot with synthetic entries for vanished backends and apply every entry,
remembering the last server version seen on a connectable backend. -/
def updateBackendHealth (s : RouterState) (hr : HealthResult) : RouterState :=
  let s1 := { s with observeError := hr.err }
  match hr.err with
  | some _ => s1
  | none =>
    let entries := hr.backends ++ syntheticEntries s.backends (hr.backends.map Prod.fst)
    let r := entries.foldl healthStep (s1, "")
    if r.2.length > 0 then { r.1 with serverVersion := r.2 } else r.1

/-- Modelled from the spec: the cooldown before retrying a failed redirect
(`redirectFailMinInterval`, about 3s; defined outside the sources). Its value is
irrelevant to the claims. -/
def redirectFailMinInterval : Nat := 3000

/-- Whether one connection of the busiest backend may be redirected now: a conn
mid-redirect is skipped, a recently failed one is skipped until the cooldown has
elapsed. An id with no wrapper is unrepresentable in Go and counts as skipped. -/
def eligibleConn (conns : List (Nat × ConnInfo)) (c : Nat) (cur : Nat) : Bool :=
  match getConn conns c with
  | none => false
  | some info =>
    match info.phase with
    | .RedirectNotify => false
    | .RedirectFail => decide (info.lastRedirect + redirectFailMinInterval ≤ cur)
    | _ => true

/-- One iteration of the `rebalance` loop: busiest = first backend from the head
with a non-empty conn list, idlest = tail backend; stop unless the score ratio
reaches the threshold; pick the busiest backend's first eligible conn; shift one
unit of `connScore` from busiest to idlest and mark the conn redirecting.
Modelled from the spec: the threshold `rebalanceMaxScoreRatio` (1.2, defined
outside the sources) is taken as the exact rational 6/5, so the loop proceeds
when `5 * score(busiest) ≥ 6 * (score(idlest) + 1)`. -/
def rebalanceStep (s : RouterState) (cur : Nat) : Option RouterState :=
  match s.backends.find? (fun b => decide (0 < b.connList.length)) with
  | none => none
  | some busiest =>
    match s.backends.getLast? with
    | none => none
    | some idlest =>
      if 5 * score busiest < 6 * (score idlest + 1) then none
      else
        match busiest.connList.find? (fun c => eligibleConn s.conns c cur) with
        | none => none
        | some c =>
          let s1 := updateAdjust s busiest.uid
            (fun b => { b with connScore := b.connScore - 1 }) true
          let s2 := updateAdjust s1 idlest.uid
            (fun b => { b with connScore := b.connScore + 1 }) false
          some { s2 with
                 conns := setConn s2.conns c ⟨.RedirectNotify, cur, some (idlest.uid, idlest.addr)⟩ }

/-- `rebalance(maxNum)` at a fixed tick time `cur`. -/
def rebalance (s : RouterState) (cur : Nat) : Nat → RouterState
  | 0 => s
  | n + 1 =>
    match rebalanceStep s cur with
    | none => s
    | some s' => rebalance s' cur n

/-- `ConnCount()`: total number of attached connections. -/
def ConnCount (s : RouterState) : Nat :=
  s.backends.foldl (fun j b => j + b.connList.length) 0

/-- `NewScoreBasedRouter`: empty backend list, nothing latched. -/
def initialRouter : RouterState :=
  { backends := [], conns := [], observeError := none, serverVersion := ""
    hasObserver := false, nextUid := 0 }

/-- One public router operation with arbitrary arguments. A callback step exists
only when the Go call returns (`some` post-state): a panicking run has none. -/
inductive Step : RouterState → RouterState → Prop where
  | next (s : RouterState) (excluded : List String) : Step s (routeOnce s excluded).2.2
  | finish (s : RouterState) (addr : String) (c : Nat) (succeed : Bool) :
      Step s (onCreateConn s addr c succeed)
  | redirectSucceed (s : RouterState) (fromAddr toAddr : String) (c : Nat) (s' : RouterState)
      (h : onRedirectFinished s fromAddr toAddr c true = some s') : Step s s'
  | redirectFail (s : RouterState) (fromAddr toAddr : String) (c : Nat) (s' : RouterState)
      (h : onRedirectFinished s fromAddr toAddr c false = some s') : Step s s'
  | connClosed (s : RouterState) (addr : String) (c : Nat) (s' : RouterState)
      (h : OnConnClosed s addr c = some s') : Step s s'
  | health (s : RouterState) (hr : HealthResult) : Step s (updateBackendHealth s hr)
  | rebalanceTick (s : RouterState) (cur n : Nat) : Step s (rebalance s cur n)

/-- States reachable from a fresh router by public operations. -/
def Reachable (s : RouterState) : Prop := Relation.ReflTransGen Step initialRouter s

/-- The wrapper currently registered for an address (first match from the head;
unique when addresses are duplicate-free). -/
def wrapperAt (s : RouterState) (a : String) : Option BackendWrapper :=
  s.backends.find? (fun b => decide (b.addr = a))

/-- A healthy health record used by the executable examples. -/
def exHealthy : BackendHealth := ⟨.Healthy, "v1", none⟩

/-- A snapshot with two healthy backends used by the executable examples. -/
def exSnapshot : HealthResult := ⟨none, [("a", exHealthy), ("b", exHealthy)]⟩

/-- The router after applying `exSnapshot` to a fresh router. -/
def exState : RouterState := updateBackendHealth initialRouter exSnapshot

/-- The backend `routeOnce` picks from `exState` (the tail one, `"b"`), with its
reservation counted. -/
def exChosen : BackendWrapper := ⟨1, "b", exHealthy, [], 1⟩

/-- `exState` after one `Next` and one successful `Finish` for conn 7. -/
def exRouted : RouterState := onCreateConn (routeOnce exState []).2.2 "b" 7 true

/-- A health record that cannot be connected to, used by the executable
examples. -/
def exBadHealth : BackendHealth := ⟨.CannotConnect, "", none⟩

/-- A snapshot with the single healthy backend "a". -/
def exSnapA : HealthResult := ⟨none, [("a", exHealthy)]⟩

/-- Router with connections 1 and 2 finished on "a". -/
def exTwoConns : RouterState :=
  onCreateConn (routeOnce (onCreateConn
    (routeOnce (updateBackendHealth initialRouter exSnapA) []).2.2 "a" 1 true) []).2.2
    "a" 2 true

/-- A snapshot that marks "a" unreachable and adds the healthy "b". -/
def exSnapB : HealthResult := ⟨none, [("a", exBadHealth), ("b", exHealthy)]⟩

/-- Router with conns 1 and 2 on the unreachable busy "a" and the idle healthy
"b". -/
def exSkewed : RouterState := updateBackendHealth exTwoConns exSnapB

/-- One rebalance tick on `exSkewed`: conn 1 is marked redirecting from "a" to
"b". -/
def exRedir : RouterState := rebalance exSkewed 100 1

/-- The backend list ordered by score, head = largest. -/
def SortedDesc (l : List BackendWrapper) : Prop :=
  l.Pairwise (fun a b => score b ≤ score a)

/-- Auxiliary invariant: all addresses in the list are distinct (both insertion
sites look the address up first). -/
def AddrNodup (s : RouterState) : Prop := (s.backends.map (·.addr)).Nodup

/-- Auxiliary invariant: wrapper uids in the list are distinct. -/
def UidNodup (s : RouterState) : Prop := (s.backends.map (·.uid)).Nodup

/-- Auxiliary invariant: every listed wrapper was allocated before `nextUid`. -/
def UidFresh (s : RouterState) : Prop := ∀ b ∈ s.backends, b.uid < s.nextUid

/-- Auxiliary invariant: every in-flight redirect target was allocated before
`nextUid`. -/
def RbFresh (s : RouterState) : Prop :=
  ∀ p ∈ s.conns, ∀ ru raddr, p.2.redirecting = some (ru, raddr) → ru < s.nextUid

/-- Auxiliary invariant: an in-flight redirect target pointer and its recorded
address agree with the listed wrapper of that uid (addresses of wrappers are
immutable in Go). -/
def RbConsistent (s : RouterState) : Prop :=
  ∀ p ∈ s.conns, ∀ ru raddr, p.2.redirecting = some (ru, raddr) →
    ∀ b ∈ s.backends, b.uid = ru → b.addr = raddr

/-- The empty-unhealthy removal condition holds for no listed backend. -/
def NoEmptyUnhealthy (s : RouterState) : Prop :=
  ∀ b ∈ s.backends, removeBackendIfEmpty b = false

/-- The structural part of the inductive invariant (everything except the
empty-unhealthy removal property). -/
def InvBase (s : RouterState) : Prop :=
  SortedDesc s.backends ∧ AddrNodup s ∧ UidNodup s ∧ UidFresh s ∧ RbFresh s ∧
    RbConsistent s

/-- The inductive invariant carried through every public operation. -/
def Inv (s : RouterState) : Prop := InvBase s ∧ NoEmptyUnhealthy s

/-! ### Order lemmas for `adjustAt` -/

lemma sortedDesc_append {l₁ l₂ : List BackendWrapper} :
    SortedDesc (l₁ ++ l₂) ↔
      SortedDesc l₁ ∧ SortedDesc l₂ ∧ ∀ a ∈ l₁, ∀ b ∈ l₂, score b ≤ score a := by
  simp [SortedDesc, List.pairwise_append]

lemma sortedDesc_middle {pre post : List BackendWrapper} {b : BackendWrapper}
    (h : SortedDesc (pre ++ b :: post)) : SortedDesc (pre ++ post) :=
  List.Pairwise.sublist (List.Sublist.append_left (List.sublist_cons_self b post) pre) h

lemma takeWhile_rev_nil_all {pre : List BackendWrapper} {s : Int}
    (hpre : SortedDesc pre)
    (h : pre.reverse.takeWhile (fun x => decide (score x < s)) = []) :
    ∀ x ∈ pre, s ≤ score x := by
  intro x hx
  have hx' : x ∈ pre.reverse := List.mem_reverse.mpr hx
  have hasc : pre.reverse.Pairwise (fun a b => score a ≤ score b) :=
    List.pairwise_reverse.mpr hpre
  cases hrev : pre.reverse with
  | nil => rw [hrev] at hx'; cases hx'
  | cons h₀ t₀ =>
    rw [hrev] at h hx' hasc
    have h₀le : s ≤ score h₀ := by
      by_cases hc : score h₀ < s
      · simp [List.takeWhile_cons, hc] at h
      · omega
    rcases List.mem_cons.mp hx' with rfl | hxt
    · exact h₀le
    · exact le_trans h₀le ((List.pairwise_cons.mp hasc).1 x hxt)

lemma dropWhile_all_ge {s : Int} {l : List BackendWrapper}
    (hasc : l.Pairwise (fun a b => score a ≤ score b)) :
    ∀ x ∈ l.dropWhile (fun x => decide (score x < s)), s ≤ score x := by
  induction l with
  | nil => intro x hx; simp [List.dropWhile] at hx
  | cons a t ih =>
    intro x hx
    rcases List.pairwise_cons.mp hasc with ⟨ha, ht⟩
    by_cases hc : score a < s
    · rw [List.dropWhile_cons_of_pos (by simpa using hc)] at hx
      exact ih ht x hx
    · rw [List.dropWhile_cons_of_neg (by simpa using hc)] at hx
      rcases List.mem_cons.mp hx with rfl | hxt
      · omega
      · exact le_trans (by omega) (ha x hxt)

lemma dropWhile_all_le {s : Int} {l : List BackendWrapper}
    (hdesc : SortedDesc l) :
    ∀ x ∈ l.dropWhile (fun x => decide (s < score x)), score x ≤ s := by
  induction l with
  | nil => intro x hx; simp [List.dropWhile] at hx
  | cons a t ih =>
    intro x hx
    rcases List.pairwise_cons.mp hdesc with ⟨ha, ht⟩
    by_cases hc : s < score a
    · rw [List.dropWhile_cons_of_pos (by simpa using hc)] at hx
      exact ih ht x hx
    · rw [List.dropWhile_cons_of_neg (by simpa using hc)] at hx
      rcases List.mem_cons.mp hx with rfl | hxt
      · omega
      · exact le_trans (ha x hxt) (by omega)

/-- `adjustBackendList` restores the order after the score of one element
changed: whenever the rest of the list is sorted, the output is sorted. -/
lemma adjustAt_sorted {pre post : List BackendWrapper} (b : BackendWrapper)
    (hs : SortedDesc (pre ++ post)) : SortedDesc (adjustAt pre b post) := by
  rcases sortedDesc_append.mp hs with ⟨hpre, hpost, hcross⟩
  rw [adjustAt]
  by_cases hempty :
      (pre.reverse.takeWhile (fun x => decide (score x < score b))).isEmpty
  · simp only [hempty, if_true]
    have htw : pre.reverse.takeWhile (fun x => decide (score x < score b)) = [] :=
      List.isEmpty_iff.mp hempty
    have hpreb : ∀ x ∈ pre, score b ≤ score x := takeWhile_rev_nil_all hpre htw
    have hsplit : post.takeWhile (fun x => decide (score b < score x)) ++
        post.dropWhile (fun x => decide (score b < score x)) = post :=
      List.takeWhile_append_dropWhile _ _
    have htdmem : ∀ x ∈ post.takeWhile (fun x => decide (score b < score x)), x ∈ post :=
      fun x hx => List.Sublist.mem hx (List.takeWhile_sublist _)
    have hddmem : ∀ x ∈ post.dropWhile (fun x => decide (score b < score x)), x ∈ post :=
      fun x hx => List.Sublist.mem hx (List.dropWhile_sublist _)
    have hpostsplit : SortedDesc (post.takeWhile (fun x => decide (score b < score x)) ++
        post.dropWhile (fun x => decide (score b < score x))) := by
      rw [hsplit]; exact hpost
    rw [sortedDesc_append]
    refine ⟨?_, ?_, ?_⟩
    · rw [sortedDesc_append]
      exact ⟨hpre, List.Pairwise.sublist (List.takeWhile_sublist _) hpost,
        fun a ha y hy => hcross a ha y (htdmem y hy)⟩
    · rw [SortedDesc, List.pairwise_cons]
      exact ⟨fun y hy => dropWhile_all_le hpost y hy,
        List.Pairwise.sublist (List.dropWhile_sublist _) hpost⟩
    · intro a ha y hy
      rcases List.mem_cons.mp hy with rfl | hyd
      · rcases List.mem_append.mp ha with hap | hat
        · exact hpreb a hap
        · have := List.mem_takeWhile_imp hat
          simp only [decide_eq_true_eq] at this
          omega
      · rcases List.mem_append.mp ha with hap | hat
        · exact hcross a hap y (hddmem y hyd)
        · exact (sortedDesc_append.mp hpostsplit).2.2 a hat y hyd
  · simp only [hempty, Bool.false_eq_true, if_false]
    have hpredecomp :
        (pre.reverse.dropWhile (fun x => decide (score x < score b))).reverse ++
          (pre.reverse.takeWhile (fun x => decide (score x < score b))).reverse = pre := by
      rw [← List.reverse_append, List.takeWhile_append_dropWhile, List.reverse_reverse]
    have hasc : pre.reverse.Pairwise (fun a b => score a ≤ score b) :=
      List.pairwise_reverse.mpr hpre
    have hdwge : ∀ x ∈ (pre.reverse.dropWhile (fun x => decide (score x < score b))).reverse,
        score b ≤ score x :=
      fun x hx => dropWhile_all_ge hasc x (List.mem_reverse.mp hx)
    have htwlt : ∀ x ∈ (pre.reverse.takeWhile (fun x => decide (score x < score b))).reverse,
        score x < score b := by
      intro x hx
      have := List.mem_takeWhile_imp (List.mem_reverse.mp hx)
      simpa using this
    have htwpre : ∀ x ∈ (pre.reverse.takeWhile (fun x => decide (score x < score b))).reverse,
        x ∈ pre := by
      intro x hx
      exact List.mem_reverse.mp
        (List.Sublist.mem (List.mem_reverse.mp hx) (List.takeWhile_sublist _))
    have hdwpre : ∀ x ∈ (pre.reverse.dropWhile (fun x => decide (score x < score b))).reverse,
        x ∈ pre := by
      intro x hx
      exact List.mem_reverse.mp
        (List.Sublist.mem (List.mem_reverse.mp hx) (List.dropWhile_sublist _))
    have hpresplit :
        SortedDesc ((pre.reverse.dropWhile (fun x => decide (score x < score b))).reverse ++
          (pre.reverse.takeWhile (fun x => decide (score x < score b))).reverse) := by
      rw [hpredecomp]; exact hpre
    have hpostlt : ∀ y ∈ post, score y < score b := by
      intro y hy
      cases htwc : pre.reverse.takeWhile (fun x => decide (score x < score b)) with
      | nil => rw [htwc] at hempty; simp at hempty
      | cons h₀ t₀ =>
        have hh₀ : score h₀ < score b := by
          have := List.mem_takeWhile_imp (htwc ▸ List.mem_cons_self h₀ t₀)
          simpa using this
        have hh₀pre : h₀ ∈ pre := by
          have hmem : h₀ ∈ pre.reverse.takeWhile (fun x => decide (score x < score b)) := by
            rw [htwc]; exact List.mem_cons_self h₀ t₀
          exact List.mem_reverse.mp (List.Sublist.mem hmem (List.takeWhile_sublist _))
        have := hcross h₀ hh₀pre y hy
        omega
    rw [sortedDesc_append]
    refine ⟨(sortedDesc_append.mp hpresplit).1, ?_, ?_⟩
    · rw [SortedDesc, List.pairwise_cons]
      constructor
      · intro y hy
        rcases List.mem_append.mp hy with hyt | hyp
        · exact le_of_lt (htwlt y hyt)
        · exact le_of_lt (hpostlt y hyp)
      · exact sortedDesc_append.mpr ⟨(sortedDesc_append.mp hpresplit).2.1, hpost,
          fun a ha y hy => hcross a (htwpre a ha) y hy⟩
    · intro a ha y hy
      rcases List.mem_cons.mp hy with rfl | hyr
      · exact hdwge a ha
      · rcases List.mem_append.mp hyr with hyt | hyp
        · exact (sortedDesc_append.mp hpresplit).2.2 a ha y hyt
        · exact hcross a (hdwpre a ha) y hyp

/-- `adjustAt` permutes the list: same elements, new position for `b`. -/
lemma adjustAt_perm (pre : List BackendWrapper) (b : BackendWrapper)
    (post : List BackendWrapper) : (adjustAt pre b post).Perm (pre ++ b :: post) := by
  rw [adjustAt]
  by_cases hempty :
      (pre.reverse.takeWhile (fun x => decide (score x < score b))).isEmpty
  · simp only [hempty, if_true]
    have hsplit := List.takeWhile_append_dropWhile (fun x => decide (score b < score x)) post
    have h1 : pre ++ post.takeWhile (fun x => decide (score b < score x)) ++
        b :: post.dropWhile (fun x => decide (score b < score x)) =
        pre ++ (post.takeWhile (fun x => decide (score b < score x)) ++
          b :: post.dropWhile (fun x => decide (score b < score x))) := by
      rw [List.append_assoc]
    rw [h1]
    refine List.Perm.append_left pre ?_
    have h2 := @List.perm_middle _ b (post.takeWhile (fun x => decide (score b < score x)))
      (post.dropWhile (fun x => decide (score b < score x)))
    rw [hsplit] at h2
    exact h2
  · simp only [hempty, Bool.false_eq_true, if_false]
    have hpredecomp :
        (pre.reverse.dropWhile (fun x => decide (score x < score b))).reverse ++
          (pre.reverse.takeWhile (fun x => decide (score x < score b))).reverse = pre := by
      rw [← List.reverse_append, List.takeWhile_append_dropWhile, List.reverse_reverse]
    have h2 := @List.perm_middle _ b
      (pre.reverse.dropWhile (fun x => decide (score x < score b))).reverse
      ((pre.reverse.takeWhile (fun x => decide (score x < score b))).reverse ++ post)
    have h3 := @List.perm_middle _ b pre post
    have h4 : (pre.reverse.dropWhile (fun x => decide (score x < score b))).reverse ++
        ((pre.reverse.takeWhile (fun x => decide (score x < score b))).reverse ++ post) =
        pre ++ post := by
      rw [← List.append_assoc, hpredecomp]
    rw [h4] at h2
    exact h2.trans h3.symm

/-- Decomposition of `adjustAt`: `b` ends up between `pre2` and `post2`, the other
elements keep their relative order, and every element whose side relative to `b`
changed has a strictly different score: the re-sort never moves `b` past a
backend of equal score. -/
lemma adjustAt_decomp (pre : List BackendWrapper) (b : BackendWrapper)
    (post : List BackendWrapper) :
    ∃ pre2 post2, adjustAt pre b post = pre2 ++ b :: post2 ∧
      pre2 ++ post2 = pre ++ post ∧
      (∀ x ∈ pre2, x ∈ pre ∨ score b < score x) ∧
      (∀ x ∈ post2, x ∈ post ∨ score x < score b) := by
  rw [adjustAt]
  by_cases hempty :
      (pre.reverse.takeWhile (fun x => decide (score x < score b))).isEmpty
  · simp only [hempty, if_true]
    refine ⟨pre ++ post.takeWhile (fun x => decide (score b < score x)),
      post.dropWhile (fun x => decide (score b < score x)), rfl, ?_, ?_, ?_⟩
    · rw [List.append_assoc, List.takeWhile_append_dropWhile]
    · intro x hx
      rcases List.mem_append.mp hx with hxp | hxt
      · exact Or.inl hxp
      · have := List.mem_takeWhile_imp hxt
        simp only [decide_eq_true_eq] at this
        exact Or.inr this
    · intro x hx
      exact Or.inl (List.Sublist.mem hx (List.dropWhile_sublist _))
  · simp only [hempty, Bool.false_eq_true, if_false]
    have hpredecomp :
        (pre.reverse.dropWhile (fun x => decide (score x < score b))).reverse ++
          (pre.reverse.takeWhile (fun x => decide (score x < score b))).reverse = pre := by
      rw [← List.reverse_append, List.takeWhile_append_dropWhile, List.reverse_reverse]
    refine ⟨(pre.reverse.dropWhile (fun x => decide (score x < score b))).reverse,
      (pre.reverse.takeWhile (fun x => decide (score x < score b))).reverse ++ post,
      rfl, ?_, ?_, ?_⟩
    · rw [← List.append_assoc, hpredecomp]
    · intro x hx
      exact Or.inl (List.mem_reverse.mp
        (List.Sublist.mem (List.mem_reverse.mp hx) (List.dropWhile_sublist _)))
    · intro x hx
      rcases List.mem_append.mp hx with hxt | hxp
      · have := List.mem_takeWhile_imp (List.mem_reverse.mp hxt)
        simp only [decide_eq_true_eq] at this
        exact Or.inr this
      · exact Or.inl hxp

/-- `adjustBackendList` either removes the (empty unhealthy) element or permutes
the list around it. -/
lemma adjustBackendList_cases (pre : List BackendWrapper) (b : BackendWrapper)
    (post : List BackendWrapper) (r : Bool) :
    (adjustBackendList pre b post r = pre ++ post ∧ r = true ∧
        removeBackendIfEmpty b = true) ∨
      (adjustBackendList pre b post r = adjustAt pre b post ∧
        (r = true → removeBackendIfEmpty b = false)) := by
  by_cases hc : (r && removeBackendIfEmpty b) = true
  · rw [adjustBackendList, if_pos hc]
    exact Or.inl ⟨rfl, ((Bool.and_eq_true _ _).mp hc).1, ((Bool.and_eq_true _ _).mp hc).2⟩
  · rw [adjustBackendList, if_neg hc]
    refine Or.inr ⟨rfl, fun hr => ?_⟩
    cases hrm : removeBackendIfEmpty b
    · rfl
    · exact absurd (by rw [hr, hrm]; rfl) hc

lemma adjustBackendList_sorted {pre post : List BackendWrapper} (b : BackendWrapper) (r : Bool)
    (hs : SortedDesc (pre ++ post)) : SortedDesc (adjustBackendList pre b post r) := by
  rcases adjustBackendList_cases pre b post r with ⟨he, _, _⟩ | ⟨he, _⟩
  · rw [he]; exact hs
  · rw [he]; exact adjustAt_sorted b hs

/-- Elements of the adjusted list: the unchanged rest, or the adjusted element
itself, which survives a `removeEmpty = true` call only when it is not an empty
unhealthy backend. -/
lemma mem_adjustBackendList {pre post : List BackendWrapper} {b : BackendWrapper} {r : Bool}
    {x : BackendWrapper} (hx : x ∈ adjustBackendList pre b post r) :
    x ∈ pre ++ post ∨ (x = b ∧ (r = true → removeBackendIfEmpty b = false)) := by
  rcases adjustBackendList_cases pre b post r with ⟨he, _, _⟩ | ⟨he, hcond⟩
  · rw [he] at hx
    exact Or.inl hx
  · rw [he] at hx
    have := (adjustAt_perm pre b post).mem_iff.mp hx
    rcases List.mem_append.mp this with hp | hc
    · exact Or.inl (List.mem_append.mpr (Or.inl hp))
    · rcases List.mem_cons.mp hc with rfl | hp
      · exact Or.inr ⟨rfl, hcond⟩
      · exact Or.inl (List.mem_append.mpr (Or.inr hp))

/-- Mapping the adjusted list: duplicate-freedom of any projection that does not
distinguish `b` from its replacement is preserved. -/
lemma nodup_map_adjustBackendList {α : Type} {pre post : List BackendWrapper}
    {b b' : BackendWrapper} (g : BackendWrapper → α) (hg : g b' = g b)
    (h : ((pre ++ b :: post).map g).Nodup) (r : Bool) :
    ((adjustBackendList pre b' post r).map g).Nodup := by
  have hmap : (pre ++ b' :: post).map g = (pre ++ b :: post).map g := by
    simp [hg]
  rcases adjustBackendList_cases pre b' post r with ⟨he, _, _⟩ | ⟨he, _⟩
  · rw [he]
    refine List.Nodup.sublist ?_ h
    exact List.Sublist.map g (List.Sublist.append_left (List.sublist_cons_self b post) pre)
  · rw [he]
    have hperm := (adjustAt_perm pre b' post).map g
    exact (hmap ▸ hperm.symm).nodup h

/-! ### `splitByUid` and lookup lemmas -/

lemma splitByUid_eq {l : List BackendWrapper} {u : Nat}
    {pre : List BackendWrapper} {b : BackendWrapper} {post : List BackendWrapper}
    (h : splitByUid l u = some (pre, b, post)) :
    l = pre ++ b :: post ∧ b.uid = u := by
  induction l generalizing pre with
  | nil => simp [splitByUid] at h
  | cons a t ih =>
    rw [splitByUid] at h
    by_cases ha : a.uid = u
    · simp only [ha, if_true] at h
      cases h
      exact ⟨rfl, ha⟩
    · simp only [ha, if_false] at h
      cases hrec : splitByUid t u with
      | none => rw [hrec] at h; cases h
      | some v =>
        obtain ⟨pre', b', post'⟩ := v
        rw [hrec] at h
        cases h
        rcases ih hrec with ⟨ht, hb⟩
        exact ⟨by rw [ht]; rfl, hb⟩

lemma splitByUid_of_mem {l : List BackendWrapper} {w : BackendWrapper} (hw : w ∈ l)
    (hnodup : (l.map (·.uid)).Nodup) :
    ∃ pre post, splitByUid l w.uid = some (pre, w, post) ∧ l = pre ++ w :: post := by
  induction l with
  | nil => cases hw
  | cons a t ih =>
    rw [List.map_cons, List.nodup_cons] at hnodup
    by_cases ha : a.uid = w.uid
    · have haw : a = w := by
        rcases List.mem_cons.mp hw with rfl | hwt
        · rfl
        · exact absurd (ha ▸ List.mem_map_of_mem (·.uid) hwt) hnodup.1
      refine ⟨[], t, ?_, by rw [haw]; rfl⟩
      rw [splitByUid, if_pos ha, haw]
    · have hwt : w ∈ t := by
        rcases List.mem_cons.mp hw with rfl | hwt
        · exact absurd rfl ha
        · exact hwt
      rcases ih hwt hnodup.2 with ⟨pre, post, hsp, hdec⟩
      refine ⟨a :: pre, post, ?_, by rw [List.cons_append, ← hdec]⟩
      rw [splitByUid, if_neg ha, hsp]

lemma splitByUid_none {l : List BackendWrapper} {u : Nat}
    (h : ∀ x ∈ l, x.uid ≠ u) : splitByUid l u = none := by
  induction l with
  | nil => rfl
  | cons a t ih =>
    rw [splitByUid, if_neg (h a (List.mem_cons_self a t)), ih]
    intro x hx
    exact h x (List.mem_cons_of_mem a hx)

lemma lookupBackend_forward_spec {l : List BackendWrapper} {addr : String} {u : Nat}
    (h : lookupBackend l addr true = some u) :
    ∃ w ∈ l, w.uid = u ∧ w.addr = addr := by
  rw [lookupBackend, if_pos rfl] at h
  cases hf : l.find? (fun b => decide (b.addr = addr)) with
  | none => rw [hf] at h; cases h
  | some w =>
    rw [hf] at h
    have hmem := List.mem_of_find?_eq_some hf
    have hp := List.find?_some hf
    simp only [decide_eq_true_eq] at hp
    cases h
    exact ⟨w, hmem, rfl, hp⟩

/-- With distinct addresses, two listed wrappers with the same address are the
same wrapper. -/
lemma addr_unique {l : List BackendWrapper} (hnodup : (l.map (·.addr)).Nodup)
    {x w : BackendWrapper} (hx : x ∈ l) (hw : w ∈ l) (hxa : x.addr = w.addr) : x = w := by
  induction l with
  | nil => cases hx
  | cons a t ih =>
    rw [List.map_cons, List.nodup_cons] at hnodup
    rcases List.mem_cons.mp hx with rfl | hxt
    · rcases List.mem_cons.mp hw with rfl | hwt
      · rfl
      · exact absurd (hxa ▸ List.mem_map_of_mem (·.addr) hwt) hnodup.1
    · rcases List.mem_cons.mp hw with rfl | hwt
      · exact absurd (hxa ▸ List.mem_map_of_mem (·.addr) hxt) hnodup.1
      · exact ih hnodup.2 hxt hwt

lemma find_addr_of_mem {l : List BackendWrapper} {w : BackendWrapper} (hw : w ∈ l)
    (hnodup : (l.map (·.addr)).Nodup) :
    l.find? (fun b => decide (b.addr = w.addr)) = some w := by
  cases hf : l.find? (fun b => decide (b.addr = w.addr)) with
  | none =>
    have := List.find?_eq_none.mp hf w hw
    simp at this
  | some x =>
    have hmem := List.mem_of_find?_eq_some hf
    have hp := List.find?_some hf
    simp only [decide_eq_true_eq] at hp
    rw [addr_unique hnodup hmem hw hp]

/-- With distinct addresses the lookup direction hint does not matter: the lookup
of a listed wrapper's address yields exactly that wrapper. -/
lemma lookupBackend_of_mem {l : List BackendWrapper} {w : BackendWrapper} (fwd : Bool)
    (hw : w ∈ l) (hnodup : (l.map (·.addr)).Nodup) :
    lookupBackend l w.addr fwd = some w.uid := by
  cases fwd
  · rw [lookupBackend, if_neg (by simp)]
    have hw' : w ∈ l.reverse := List.mem_reverse.mpr hw
    have hnodup' : (l.reverse.map (·.addr)).Nodup := by
      rw [List.map_reverse]
      exact List.nodup_reverse.mpr hnodup
    rw [find_addr_of_mem hw' hnodup']
    rfl
  · rw [lookupBackend, if_pos rfl, find_addr_of_mem hw hnodup]
    rfl

lemma lookupBackend_none {l : List BackendWrapper} {addr : String} (fwd : Bool)
    (h : ∀ x ∈ l, x.addr ≠ addr) : lookupBackend l addr fwd = none := by
  have hfind : ∀ (m : List BackendWrapper), (∀ x ∈ m, x.addr ≠ addr) →
      m.find? (fun b => decide (b.addr = addr)) = none := by
    intro m hm
    rw [List.find?_eq_none]
    intro x hx
    simpa using hm x hx
  cases fwd
  · rw [lookupBackend, if_neg (by simp), hfind _ (fun x hx => h x (List.mem_reverse.mp hx))]
    rfl
  · rw [lookupBackend, if_pos rfl, hfind _ h]
    rfl

lemma lookupBackend_backward_spec {l : List BackendWrapper} {addr : String} {u : Nat}
    (h : lookupBackend l addr false = some u) :
    ∃ w ∈ l, w.uid = u ∧ w.addr = addr := by
  rw [lookupBackend, if_neg (by simp)] at h
  cases hf : l.reverse.find? (fun b => decide (b.addr = addr)) with
  | none => rw [hf] at h; cases h
  | some w =>
    rw [hf] at h
    have hmem := List.mem_reverse.mp (List.mem_of_find?_eq_some hf)
    have hp := List.find?_some hf
    simp only [decide_eq_true_eq] at hp
    cases h
    exact ⟨w, hmem, rfl, hp⟩

lemma lookupBackend_spec {l : List BackendWrapper} {addr : String} {u : Nat} {fwd : Bool}
    (h : lookupBackend l addr fwd = some u) :
    ∃ w ∈ l, w.uid = u ∧ w.addr = addr := by
  cases fwd
  · exact lookupBackend_backward_spec h
  · exact lookupBackend_forward_spec h

lemma lookupBackend_eq_none {l : List BackendWrapper} {addr : String} {fwd : Bool}
    (h : lookupBackend l addr fwd = none) : ∀ x ∈ l, x.addr ≠ addr := by
  intro x hx hxa
  have hfind : ∀ (m : List BackendWrapper), x ∈ m →
      m.find? (fun b => decide (b.addr = addr)) ≠ none := by
    intro m hm hn
    have := List.find?_eq_none.mp hn x hm
    simp [hxa] at this
  cases fwd
  · rw [lookupBackend, if_neg (by simp)] at h
    exact hfind l.reverse (List.mem_reverse.mpr hx) (by
      cases hf : l.reverse.find? (fun b => decide (b.addr = addr))
      · rfl
      · rw [hf] at h; cases h)
  · rw [lookupBackend, if_pos rfl] at h
    exact hfind l hx (by
      cases hf : l.find? (fun b => decide (b.addr = addr))
      · rfl
      · rw [hf] at h; cases h)

lemma splitByUid_first {l : List BackendWrapper} {u : Nat}
    {pre : List BackendWrapper} {b : BackendWrapper} {post : List BackendWrapper}
    (h : splitByUid l u = some (pre, b, post)) : ∀ x ∈ pre, x.uid ≠ u := by
  induction l generalizing pre with
  | nil => simp [splitByUid] at h
  | cons a t ih =>
    rw [splitByUid] at h
    by_cases ha : a.uid = u
    · simp only [ha, if_true] at h
      cases h
      intro x hx
      cases hx
    · simp only [ha, if_false] at h
      cases hrec : splitByUid t u with
      | none => rw [hrec] at h; cases h
      | some v =>
        obtain ⟨pre', b', post'⟩ := v
        rw [hrec] at h
        cases h
        intro x hx
        rcases List.mem_cons.mp hx with rfl | hxp
        · exact ha
        · exact ih hrec x hxp

lemma splitByUid_eq_none {l : List BackendWrapper} {u : Nat}
    (h : splitByUid l u = none) : ∀ x ∈ l, x.uid ≠ u := by
  induction l with
  | nil => intro x hx; cases hx
  | cons a t ih =>
    rw [splitByUid] at h
    by_cases ha : a.uid = u
    · simp only [ha, if_true] at h
      cases h
    · simp only [ha, if_false] at h
      cases hrec : splitByUid t u with
      | none =>
        intro x hx
        rcases List.mem_cons.mp hx with rfl | hxt
        · exact ha
        · exact ih hrec x hxt
      | some v =>
        obtain ⟨pre', b', post'⟩ := v
        rw [hrec] at h
        cases h

lemma splitByUid_middle {pre post : List BackendWrapper} {b : BackendWrapper} {u : Nat}
    (hb : b.uid = u) (hpre : ∀ x ∈ pre, x.uid ≠ u) :
    splitByUid (pre ++ b :: post) u = some (pre, b, post) := by
  induction pre with
  | nil => rw [List.nil_append, splitByUid, if_pos hb]
  | cons a t ih =>
    rw [List.cons_append, splitByUid, if_neg (hpre a (List.mem_cons_self a t)),
      ih (fun x hx => hpre x (List.mem_cons_of_mem a hx))]

/-- With distinct uids, the rest of a decomposed list avoids the middle uid. -/
lemma middle_uid_ne {l pre post : List BackendWrapper} {b : BackendWrapper}
    (hl : l = pre ++ b :: post) (hu : (l.map (·.uid)).Nodup) :
    ∀ x ∈ pre ++ post, x.uid ≠ b.uid := by
  subst hl
  intro x hx hxa
  rw [List.map_append, List.map_cons] at hu
  rcases List.nodup_cons.mp (List.nodup_middle.mp hu) with ⟨hnm, _⟩
  rw [← List.map_append] at hnm
  exact hnm (hxa ▸ List.mem_map_of_mem (·.uid) hx)

/-! ### State-level characterizations -/

lemma updateAdjust_fields (s : RouterState) (u : Nat) (f : BackendWrapper → BackendWrapper)
    (r : Bool) :
    (updateAdjust s u f r).conns = s.conns ∧ (updateAdjust s u f r).nextUid = s.nextUid ∧
    (updateAdjust s u f r).observeError = s.observeError ∧
    (updateAdjust s u f r).serverVersion = s.serverVersion ∧
    (updateAdjust s u f r).hasObserver = s.hasObserver := by
  cases h : splitByUid s.backends u with
  | none => simp [updateAdjust, h]
  | some v =>
    obtain ⟨pre, b, post⟩ := v
    simp [updateAdjust, h]

/-- Everything the invariant proofs need to know about a mutate-then-adjust. -/
lemma updateAdjust_main {s : RouterState} {u : Nat}
    (f : BackendWrapper → BackendWrapper) (r : Bool)
    (hfu : ∀ b, (f b).uid = b.uid) (hfa : ∀ b, (f b).addr = b.addr)
    (hsorted : SortedDesc s.backends) (haddr : AddrNodup s) (huid : UidNodup s) :
    SortedDesc (updateAdjust s u f r).backends ∧
    AddrNodup (updateAdjust s u f r) ∧ UidNodup (updateAdjust s u f r) ∧
    ∀ x ∈ (updateAdjust s u f r).backends,
      (x ∈ s.backends ∧ x.uid ≠ u) ∨
      ∃ b ∈ s.backends, b.uid = u ∧ x = f b ∧
        (r = true → removeBackendIfEmpty (f b) = false) := by
  cases hsp : splitByUid s.backends u with
  | none =>
    have hne := splitByUid_eq_none hsp
    simp only [updateAdjust, hsp]
    exact ⟨hsorted, haddr, huid, fun x hx => Or.inl ⟨hx, hne x hx⟩⟩
  | some v =>
    obtain ⟨pre, b, post⟩ := v
    rcases splitByUid_eq hsp with ⟨hl, hbu⟩
    have hrest : ∀ x ∈ pre ++ post, x.uid ≠ u := by
      intro x hx
      rw [← hbu]
      exact middle_uid_ne hl huid x hx
    have hmid : SortedDesc (pre ++ post) := sortedDesc_middle (hl ▸ hsorted)
    have hbmem : b ∈ s.backends := by
      rw [hl]
      exact List.mem_append.mpr (Or.inr (List.mem_cons_self b post))
    have hrestmem : ∀ x ∈ pre ++ post, x ∈ s.backends := by
      intro x hx
      rw [hl]
      rcases List.mem_append.mp hx with hp | hp
      · exact List.mem_append.mpr (Or.inl hp)
      · exact List.mem_append.mpr (Or.inr (List.mem_cons_of_mem b hp))
    simp only [updateAdjust, hsp]
    refine ⟨adjustBackendList_sorted (f b) r hmid, ?_, ?_, ?_⟩
    · exact nodup_map_adjustBackendList (·.addr) (hfa b) (hl ▸ haddr) r
    · exact nodup_map_adjustBackendList (·.uid) (hfu b) (hl ▸ huid) r
    · intro x hx
      rcases mem_adjustBackendList hx with hxr | ⟨rfl, hcond⟩
      · exact Or.inl ⟨hrestmem x hxr, hrest x hxr⟩
      · exact Or.inr ⟨b, hbmem, hbu, rfl, hcond⟩

lemma updateNoAdjust_fields (s : RouterState) (u : Nat) (f : BackendWrapper → BackendWrapper) :
    (updateNoAdjust s u f).conns = s.conns ∧ (updateNoAdjust s u f).nextUid = s.nextUid ∧
    (updateNoAdjust s u f).observeError = s.observeError ∧
    (updateNoAdjust s u f).serverVersion = s.serverVersion ∧
    (updateNoAdjust s u f).hasObserver = s.hasObserver := by
  cases h : splitByUid s.backends u with
  | none => simp [updateNoAdjust, h]
  | some v =>
    obtain ⟨pre, b, post⟩ := v
    simp [updateNoAdjust, h]

lemma updateNoAdjust_cases (s : RouterState) (u : Nat) (f : BackendWrapper → BackendWrapper) :
    (splitByUid s.backends u = none ∧ updateNoAdjust s u f = s) ∨
    ∃ pre b post, splitByUid s.backends u = some (pre, b, post) ∧
      s.backends = pre ++ b :: post ∧ b.uid = u ∧
      (updateNoAdjust s u f).backends = pre ++ f b :: post := by
  cases h : splitByUid s.backends u with
  | none =>
    refine Or.inl ⟨rfl, ?_⟩
    simp [updateNoAdjust, h]
  | some v =>
    obtain ⟨pre, b, post⟩ := v
    rcases splitByUid_eq h with ⟨hl, hbu⟩
    exact Or.inr ⟨pre, b, post, rfl, hl, hbu, by simp [updateNoAdjust, h]⟩

/-- Everything the invariant proofs need to know about `ensureBackend`. -/
lemma ensureBackend_cases (s : RouterState) (addr : String) (fwd : Bool) :
    (∃ w ∈ s.backends, w.addr = addr ∧ ensureBackend s addr fwd = (s, w.uid)) ∨
    ((∀ x ∈ s.backends, x.addr ≠ addr) ∧
      ensureBackend s addr fwd =
        ({ s with
            backends := adjustAt [] (freshWrapper s.nextUid addr) s.backends,
            nextUid := s.nextUid + 1 }, s.nextUid)) := by
  cases h : lookupBackend s.backends addr fwd with
  | none =>
    refine Or.inr ⟨lookupBackend_eq_none h, ?_⟩
    rw [ensureBackend, h]
  | some u =>
    rcases lookupBackend_spec h with ⟨w, hm, hu, ha⟩
    refine Or.inl ⟨w, hm, ha, ?_⟩
    rw [ensureBackend, h, hu]

/-- Everything the invariant proofs need to know about a fresh insertion at
either end of the list. -/
lemma insert_facts {l : List BackendWrapper} {n : Nat} (b : BackendWrapper)
    {pre post : List BackendWrapper} (hps : pre ++ post = l)
    (hbu : b.uid = n)
    (hba : ∀ x ∈ l, x.addr ≠ b.addr)
    (hsorted : SortedDesc l) (haddr : (l.map (·.addr)).Nodup)
    (huid : (l.map (·.uid)).Nodup) (hfresh : ∀ x ∈ l, x.uid < n) :
    SortedDesc (adjustAt pre b post) ∧
    ((adjustAt pre b post).map (·.addr)).Nodup ∧
    ((adjustAt pre b post).map (·.uid)).Nodup ∧
    (∀ x ∈ adjustAt pre b post, x.uid < n + 1) ∧
    (∀ x ∈ adjustAt pre b post, x ∈ l ∨ x = b) ∧ b ∈ adjustAt pre b post := by
  have hperm := adjustAt_perm pre b post
  have hmidperm : (pre ++ b :: post).Perm (b :: l) := by
    have := @List.perm_middle _ b pre post
    rw [hps] at this
    exact this
  have hmem : ∀ x ∈ adjustAt pre b post, x ∈ l ∨ x = b := by
    intro x hx
    have := (hperm.trans hmidperm).mem_iff.mp hx
    rcases List.mem_cons.mp this with rfl | hxl
    · exact Or.inr rfl
    · exact Or.inl hxl
  refine ⟨adjustAt_sorted b (hps ▸ hsorted), ?_, ?_, ?_, hmem, ?_⟩
  · refine ((hperm.trans hmidperm).map (·.addr)).symm.nodup ?_
    rw [List.map_cons, List.nodup_cons]
    exact ⟨fun hc => by
      rcases List.mem_map.mp hc with ⟨y, hy, hya⟩
      exact hba y hy hya, haddr⟩
  · refine ((hperm.trans hmidperm).map (·.uid)).symm.nodup ?_
    rw [List.map_cons, List.nodup_cons]
    exact ⟨fun hc => by
      rcases List.mem_map.mp hc with ⟨y, hy, hya⟩
      exact absurd (hya ▸ hfresh y hy) (by rw [hbu]; omega), huid⟩
  · intro x hx
    rcases hmem x hx with hxl | rfl
    · exact lt_trans (hfresh x hxl) (Nat.lt_succ_self n)
    · rw [hbu]; exact Nat.lt_succ_self n
  · exact (hperm.trans hmidperm).symm.mem_iff.mp (List.mem_cons_self b l)

/-- Moving an element whose identity fields are unchanged: the invariant facts. -/
lemma modify_facts {l pre post : List BackendWrapper} {b b' : BackendWrapper}
    (hl : l = pre ++ b :: post) (hub : b'.uid = b.uid) (hab : b'.addr = b.addr)
    (hsorted : SortedDesc l) (haddr : (l.map (·.addr)).Nodup)
    (huid : (l.map (·.uid)).Nodup) :
    SortedDesc (adjustAt pre b' post) ∧
    ((adjustAt pre b' post).map (·.addr)).Nodup ∧
    ((adjustAt pre b' post).map (·.uid)).Nodup ∧
    (∀ x ∈ adjustAt pre b' post, x ∈ l ∨ x = b') := by
  have hperm := adjustAt_perm pre b' post
  have hmap : ∀ {α : Type} (g : BackendWrapper → α), g b' = g b →
      (pre ++ b' :: post).map g = l.map g := by
    intro α g hg
    rw [hl]
    simp [hg]
  refine ⟨adjustAt_sorted b' (sortedDesc_middle (hl ▸ hsorted)), ?_, ?_, ?_⟩
  · have h1 := hperm.map (fun x => x.addr)
    rw [@hmap String (fun x => x.addr) hab] at h1
    exact h1.symm.nodup haddr
  · have h1 := hperm.map (fun x => x.uid)
    rw [@hmap Nat (fun x => x.uid) hub] at h1
    exact h1.symm.nodup huid
  · intro x hx
    have := hperm.mem_iff.mp hx
    rcases List.mem_append.mp this with hp | hc
    · exact Or.inl (hl ▸ List.mem_append.mpr (Or.inl hp))
    · rcases List.mem_cons.mp hc with rfl | hp
      · exact Or.inr rfl
      · exact Or.inl (hl ▸ List.mem_append.mpr (Or.inr (List.mem_cons_of_mem b hp)))

lemma removeIfEmpty_false_of_healthy {b : BackendWrapper}
    (h : b.health.status = .Healthy) : removeBackendIfEmpty b = false := by
  simp [removeBackendIfEmpty, h]

lemma removeIfEmpty_false_of_conns {b : BackendWrapper} (h : b.connList ≠ []) :
    removeBackendIfEmpty b = false := by
  have hlen : ¬ (b.connList.length = 0) := by
    simpa [List.length_eq_zero] using h
  simp [removeBackendIfEmpty, hlen]

lemma qualifies_healthy {b : BackendWrapper} {ex : List String}
    (h : qualifies b ex = true) : b.health.status = .Healthy := by
  rcases (Bool.and_eq_true _ _).mp h with ⟨h1, _⟩
  simpa using h1

lemma qualifies_not_excluded {b : BackendWrapper} {ex : List String}
    (h : qualifies b ex = true) : b.addr ∉ ex := by
  rcases (Bool.and_eq_true _ _).mp h with ⟨_, h2⟩
  simpa using h2

lemma setConn_mem {conns : List (Nat × ConnInfo)} {c : Nat} {i : ConnInfo}
    {p : Nat × ConnInfo} (hp : p ∈ setConn conns c i) : p = (c, i) ∨ p ∈ conns := by
  rw [setConn] at hp
  rcases List.mem_cons.mp hp with rfl | hp
  · exact Or.inl rfl
  · exact Or.inr (List.mem_filter.mp hp).1

lemma getConn_setConn_self (conns : List (Nat × ConnInfo)) (c : Nat) (i : ConnInfo) :
    getConn (setConn conns c i) c = some i := by
  rw [getConn, setConn, List.find?_cons_of_pos _ (by simp)]
  rfl

/-! ### `pickLast` specification -/

lemma pickLast_none {l : List BackendWrapper} {ex : List String}
    (h : pickLast l ex = none) : ∀ x ∈ l, qualifies x ex = false := by
  induction l with
  | nil => intro x hx; cases hx
  | cons a t ih =>
    rw [pickLast] at h
    cases hrec : pickLast t ex with
    | some v =>
      obtain ⟨pre', x', post'⟩ := v
      rw [hrec] at h
      cases h
    | none =>
      rw [hrec] at h
      by_cases hq : qualifies a ex = true
      · rw [if_pos hq] at h
        cases h
      · rw [if_neg hq] at h
        intro x hx
        rcases List.mem_cons.mp hx with rfl | hxt
        · exact Bool.not_eq_true _ ▸ Bool.of_not_eq_true hq
        · exact ih hrec x hxt

lemma pickLast_spec {l : List BackendWrapper} {ex : List String}
    {pre : List BackendWrapper} {b : BackendWrapper} {post : List BackendWrapper}
    (h : pickLast l ex = some (pre, b, post)) :
    l = pre ++ b :: post ∧ qualifies b ex = true ∧
      ∀ x ∈ post, qualifies x ex = false := by
  induction l generalizing pre with
  | nil => simp [pickLast] at h
  | cons a t ih =>
    rw [pickLast] at h
    cases hrec : pickLast t ex with
    | some v =>
      obtain ⟨pre', x', post'⟩ := v
      rw [hrec] at h
      cases h
      rcases ih hrec with ⟨ht, hq, hpost⟩
      exact ⟨by rw [ht]; rfl, hq, hpost⟩
    | none =>
      rw [hrec] at h
      by_cases hq : qualifies a ex = true
      · rw [if_pos hq] at h
        cases h
        exact ⟨rfl, hq, pickLast_none hrec⟩
      · rw [if_neg hq] at h
        cases h

/-! ### Invariant preservation, operation by operation -/

lemma routeOnce_cases (s : RouterState) (ex : List String) :
    (∃ e, s.observeError = some e ∧ routeOnce s ex = (.observeErr e, false, s)) ∨
    (s.observeError = none ∧ pickLast s.backends ex = none ∧
      routeOnce s ex = (.noBackend, s.hasObserver, s)) ∨
    (∃ pre b post, s.observeError = none ∧ pickLast s.backends ex = some (pre, b, post) ∧
      routeOnce s ex = (.found { b with connScore := b.connScore + 1 }, false,
        { s with backends := adjustAt pre { b with connScore := b.connScore + 1 } post })) := by
  cases he : s.observeError with
  | some e => exact Or.inl ⟨e, rfl, by rw [routeOnce, he]⟩
  | none =>
    cases hp : pickLast s.backends ex with
    | none => exact Or.inr (Or.inl ⟨rfl, rfl, by rw [routeOnce, he, hp]⟩)
    | some v =>
      obtain ⟨pre, b, post⟩ := v
      exact Or.inr (Or.inr ⟨pre, b, post, rfl, rfl, by rw [routeOnce, he, hp]⟩)

lemma inv_routeOnce {s : RouterState} (ex : List String) (hinv : Inv s) :
    Inv (routeOnce s ex).2.2 := by
  rcases routeOnce_cases s ex with ⟨e, _, heq⟩ | ⟨_, _, heq⟩ |
    ⟨pre, b, post, _, hpick, heq⟩
  · rw [heq]; exact hinv
  · rw [heq]; exact hinv
  · rw [heq]
    obtain ⟨⟨hsorted, haddr, huid, hfresh, hrbf, hrbc⟩, hnemp⟩ := hinv
    rcases pickLast_spec hpick with ⟨hl, hq, _⟩
    obtain ⟨hs', ha', hu', hmem⟩ :=
      @modify_facts s.backends pre post b { b with connScore := b.connScore + 1 }
        hl rfl rfl hsorted haddr huid
    have hbmem : b ∈ s.backends := by
      rw [hl]
      exact List.mem_append.mpr (Or.inr (List.mem_cons_self b post))
    refine ⟨⟨hs', ha', hu', ?_, hrbf, ?_⟩, ?_⟩
    · intro x hx
      rcases hmem x hx with hxl | rfl
      · exact hfresh x hxl
      · exact hfresh b hbmem
    · intro p hp ru raddr hrd x hx hxu
      rcases hmem x hx with hxl | rfl
      · exact hrbc p hp ru raddr hrd x hxl hxu
      · exact hrbc p hp ru raddr hrd b hbmem hxu
    · intro x hx
      rcases hmem x hx with hxl | rfl
      · exact hnemp x hxl
      · exact removeIfEmpty_false_of_healthy (qualifies_healthy hq)

lemma removeIfEmpty_iff (b : BackendWrapper) :
    removeBackendIfEmpty b = true ↔
      b.health.status = .CannotConnect ∧ b.connList = [] ∧ b.connScore ≤ 0 := by
  simp [removeBackendIfEmpty, List.length_eq_zero, and_assoc]

lemma removeIfEmpty_false_iff (b : BackendWrapper) :
    removeBackendIfEmpty b = false ↔
      ¬(b.health.status = .CannotConnect ∧ b.connList = [] ∧ b.connScore ≤ 0) := by
  rw [← removeIfEmpty_iff]
  cases removeBackendIfEmpty b <;> simp

lemma removeIfEmpty_false_incr {b : BackendWrapper} (h : removeBackendIfEmpty b = false) :
    removeBackendIfEmpty { b with connScore := b.connScore + 1 } = false := by
  rw [removeIfEmpty_false_iff] at h ⊢
  intro hc
  have h1 : b.health.status = .CannotConnect := hc.1
  have h2 : b.connList = [] := hc.2.1
  have h3 : b.connScore + 1 ≤ 0 := hc.2.2
  exact h ⟨h1, h2, by omega⟩

/-- The general invariant-preservation for a mutate-then-adjust step: the mutated
wrapper keeps its identity, every other listed wrapper is already known to be
non-removable, and the mutated wrapper is either adjusted under
`removeEmpty = true` or known not to become an empty unhealthy backend. -/
lemma inv_updateAdjust_except {s : RouterState} {u : Nat}
    (f : BackendWrapper → BackendWrapper) (r : Bool)
    (hfu : ∀ b, (f b).uid = b.uid) (hfa : ∀ b, (f b).addr = b.addr)
    (hsorted : SortedDesc s.backends) (haddr : AddrNodup s) (huid : UidNodup s)
    (hfresh : UidFresh s) (hrbf : RbFresh s) (hrbc : RbConsistent s)
    (hne : ∀ x ∈ s.backends, x.uid ≠ u → removeBackendIfEmpty x = false)
    (hkeep : r = true ∨ ∀ b ∈ s.backends, b.uid = u → removeBackendIfEmpty (f b) = false) :
    Inv (updateAdjust s u f r) := by
  obtain ⟨hs', ha', hu', hmem⟩ := updateAdjust_main f r hfu hfa hsorted haddr huid
  obtain ⟨hc', hn', _, _, _⟩ := updateAdjust_fields s u f r
  refine ⟨⟨hs', ha', hu', ?_, ?_, ?_⟩, ?_⟩
  · intro x hx
    rw [hn']
    rcases hmem x hx with ⟨hxl, _⟩ | ⟨b, hb, _, rfl, _⟩
    · exact hfresh x hxl
    · rw [hfu]
      exact hfresh b hb
  · intro p hp ru raddr hrd
    rw [hn']
    exact hrbf p (hc' ▸ hp) ru raddr hrd
  · intro p hp ru raddr hrd x hx hxu
    rcases hmem x hx with ⟨hxl, _⟩ | ⟨b, hb, _, rfl, _⟩
    · exact hrbc p (hc' ▸ hp) ru raddr hrd x hxl hxu
    · rw [hfa b]
      exact hrbc p (hc' ▸ hp) ru raddr hrd b hb ((hfu b) ▸ hxu)
  · intro x hx
    rcases hmem x hx with ⟨hxl, hxu⟩ | ⟨b, hb, hbu, rfl, hcond⟩
    · exact hne x hxl hxu
    · rcases hkeep with hr | hall
      · exact hcond hr
      · exact hall b hb hbu

/-- `inv_updateAdjust_except` for a state already satisfying the full invariant. -/
lemma inv_updateAdjust {s : RouterState} {u : Nat}
    (f : BackendWrapper → BackendWrapper) (r : Bool)
    (hfu : ∀ b, (f b).uid = b.uid) (hfa : ∀ b, (f b).addr = b.addr)
    (hinv : Inv s)
    (hkeep : r = true ∨ ∀ b ∈ s.backends, b.uid = u → removeBackendIfEmpty (f b) = false) :
    Inv (updateAdjust s u f r) := by
  obtain ⟨⟨hsorted, haddr, huid, hfresh, hrbf, hrbc⟩, hnemp⟩ := hinv
  exact inv_updateAdjust_except f r hfu hfa hsorted haddr huid hfresh hrbf hrbc
    (fun x hx _ => hnemp x hx) hkeep

lemma inv_onCreateConn {s : RouterState} (addr : String) (c : Nat) (succeed : Bool)
    (hinv : Inv s) : Inv (onCreateConn s addr c succeed) := by
  obtain ⟨⟨hsorted, haddr, huid, hfresh, hrbf, hrbc⟩, hnemp⟩ := hinv
  rcases ensureBackend_cases s addr true with ⟨w, hw, hwa, heq⟩ | ⟨hno, heq⟩
  · rw [onCreateConn, heq]
    cases succeed
    · simp only [Bool.false_eq_true, if_false]
      exact inv_updateAdjust _ true (fun b => rfl) (fun b => rfl)
        ⟨⟨hsorted, haddr, huid, hfresh, hrbf, hrbc⟩, hnemp⟩ (Or.inl rfl)
    · simp only [if_true]
      rw [addConnOp]
      refine inv_updateAdjust _ false (fun b => rfl) (fun b => rfl) ?_
        (Or.inr (fun b _ _ => removeIfEmpty_false_of_conns (by simp)))
      refine ⟨⟨hsorted, haddr, huid, hfresh, ?_, ?_⟩, hnemp⟩
      · intro p hp ru raddr hrd
        rcases setConn_mem hp with rfl | hpo
        · cases hrd
        · exact hrbf p hpo ru raddr hrd
      · intro p hp ru raddr hrd x hx hxu
        rcases setConn_mem hp with rfl | hpo
        · cases hrd
        · exact hrbc p hpo ru raddr hrd x hx hxu
  · rw [onCreateConn, heq]
    obtain ⟨hs1, ha1, hu1, hfr1, hmem1, hbin1⟩ :=
      insert_facts (freshWrapper s.nextUid addr) (List.nil_append s.backends) rfl
        (fun x hx => hno x hx) hsorted haddr huid hfresh
    have hne1 : ∀ x ∈ adjustAt [] (freshWrapper s.nextUid addr) s.backends,
        x.uid ≠ s.nextUid → removeBackendIfEmpty x = false := by
      intro x hx hxu
      rcases hmem1 x hx with hxl | rfl
      · exact hnemp x hxl
      · exact absurd rfl hxu
    cases succeed
    · simp only [Bool.false_eq_true, if_false]
      exact inv_updateAdjust_except _ true (fun b => rfl) (fun b => rfl)
        hs1 ha1 hu1 hfr1
        (fun p hp ru raddr hrd => Nat.lt_succ_of_lt (hrbf p hp ru raddr hrd))
        (fun p hp ru raddr hrd x hx hxu => by
          rcases hmem1 x hx with hxl | rfl
          · exact hrbc p hp ru raddr hrd x hxl hxu
          · exact absurd (hxu ▸ hrbf p hp ru raddr hrd) (lt_irrefl _))
        hne1 (Or.inl rfl)
    · simp only [if_true]
      rw [addConnOp]
      refine inv_updateAdjust_except _ false (fun b => rfl) (fun b => rfl)
        hs1 ha1 hu1 hfr1 ?_ ?_ hne1
        (Or.inr (fun b _ _ => removeIfEmpty_false_of_conns (by simp)))
      · intro p hp ru raddr hrd
        rcases setConn_mem hp with rfl | hpo
        · cases hrd
        · exact Nat.lt_succ_of_lt (hrbf p hpo ru raddr hrd)
      · intro p hp ru raddr hrd x hx hxu
        rcases setConn_mem hp with rfl | hpo
        · cases hrd
        · rcases hmem1 x hx with hxl | rfl
          · exact hrbc p hpo ru raddr hrd x hxl hxu
          · exact absurd (hxu ▸ hrbf p hpo ru raddr hrd) (lt_irrefl _)

lemma removeIfEmpty_false_of_pos {b : BackendWrapper} (h : 0 < b.connScore) :
    removeBackendIfEmpty b = false := by
  rw [removeIfEmpty_false_iff]
  intro hc
  have := hc.2.2
  omega

/-- The structural invariant, the untouched fields and the membership
classification through one mutate-then-adjust. -/
lemma base_updateAdjust {s : RouterState} {u : Nat}
    (f : BackendWrapper → BackendWrapper) (r : Bool)
    (hfu : ∀ b, (f b).uid = b.uid) (hfa : ∀ b, (f b).addr = b.addr)
    (hbase : InvBase s) :
    InvBase (updateAdjust s u f r) ∧
    (updateAdjust s u f r).conns = s.conns ∧
    (updateAdjust s u f r).nextUid = s.nextUid ∧
    ∀ x ∈ (updateAdjust s u f r).backends,
      (x ∈ s.backends ∧ x.uid ≠ u) ∨
      ∃ b ∈ s.backends, b.uid = u ∧ x = f b ∧
        (r = true → removeBackendIfEmpty (f b) = false) := by
  obtain ⟨hsorted, haddr, huid, hfresh, hrbf, hrbc⟩ := hbase
  obtain ⟨hs', ha', hu', hmem⟩ := updateAdjust_main f r hfu hfa hsorted haddr huid
  obtain ⟨hc', hn', _, _, _⟩ := updateAdjust_fields s u f r
  refine ⟨⟨hs', ha', hu', ?_, ?_, ?_⟩, hc', hn', hmem⟩
  · intro x hx
    rw [hn']
    rcases hmem x hx with ⟨hxl, _⟩ | ⟨b, hb, _, rfl, _⟩
    · exact hfresh x hxl
    · rw [hfu]
      exact hfresh b hb
  · intro p hp ru raddr hrd
    rw [hn']
    exact hrbf p (hc' ▸ hp) ru raddr hrd
  · intro p hp ru raddr hrd x hx hxu
    rcases hmem x hx with ⟨hxl, _⟩ | ⟨b, hb, _, rfl, _⟩
    · exact hrbc p (hc' ▸ hp) ru raddr hrd x hxl hxu
    · rw [hfa b]
      exact hrbc p (hc' ▸ hp) ru raddr hrd b hb ((hfu b) ▸ hxu)

/-- The structural invariant and the membership classification through
`ensureBackend`. -/
lemma base_ensure {s : RouterState} (addr : String) (fwd : Bool) (hbase : InvBase s) :
    InvBase (ensureBackend s addr fwd).1 ∧
    (ensureBackend s addr fwd).1.conns = s.conns ∧
    s.nextUid ≤ (ensureBackend s addr fwd).1.nextUid ∧
    (∃ w ∈ (ensureBackend s addr fwd).1.backends,
      w.uid = (ensureBackend s addr fwd).2 ∧ w.addr = addr) ∧
    ∀ x ∈ (ensureBackend s addr fwd).1.backends,
      x ∈ s.backends ∨
        (x = freshWrapper s.nextUid addr ∧ (ensureBackend s addr fwd).2 = s.nextUid) := by
  obtain ⟨hsorted, haddr, huid, hfresh, hrbf, hrbc⟩ := hbase
  rcases ensureBackend_cases s addr fwd with ⟨w, hw, hwa, heq⟩ | ⟨hno, heq⟩
  · rw [heq]
    exact ⟨⟨hsorted, haddr, huid, hfresh, hrbf, hrbc⟩, rfl, le_refl _,
      ⟨w, hw, rfl, hwa⟩, fun x hx => Or.inl hx⟩
  · rw [heq]
    obtain ⟨hs1, ha1, hu1, hfr1, hmem1, hbin1⟩ :=
      insert_facts (freshWrapper s.nextUid addr) (List.nil_append s.backends) rfl
        (fun x hx => hno x hx) hsorted haddr huid hfresh
    refine ⟨⟨hs1, ha1, hu1, hfr1, ?_, ?_⟩, rfl, Nat.le_succ _,
      ⟨freshWrapper s.nextUid addr, hbin1, rfl, rfl⟩,
      fun x hx => (hmem1 x hx).imp id (fun he => ⟨he, rfl⟩)⟩
    · intro p hp ru raddr hrd
      exact Nat.lt_succ_of_lt (hrbf p hp ru raddr hrd)
    · intro p hp ru raddr hrd x hx hxu
      rcases hmem1 x hx with hxl | rfl
      · exact hrbc p hp ru raddr hrd x hxl hxu
      · exact absurd (hxu ▸ hrbf p hp ru raddr hrd) (lt_irrefl _)

/-- Writing a conn-wrapper state that carries no redirect target preserves the
invariant. -/
lemma inv_setConn_none {s : RouterState} (c : Nat) (i : ConnInfo)
    (hi : i.redirecting = none) (hinv : Inv s) :
    Inv { s with conns := setConn s.conns c i } := by
  obtain ⟨⟨hsorted, haddr, huid, hfresh, hrbf, hrbc⟩, hnemp⟩ := hinv
  refine ⟨⟨hsorted, haddr, huid, hfresh, ?_, ?_⟩, hnemp⟩
  · intro p hp ru raddr hrd
    rcases setConn_mem hp with rfl | hpo
    · have hrd' : i.redirecting = some (ru, raddr) := hrd
      rw [hi] at hrd'
      cases hrd'
    · exact hrbf p hpo ru raddr hrd
  · intro p hp ru raddr hrd x hx hxu
    rcases setConn_mem hp with rfl | hpo
    · have hrd' : i.redirecting = some (ru, raddr) := hrd
      rw [hi] at hrd'
      cases hrd'
    · exact hrbc p hpo ru raddr hrd x hx hxu

lemma inv_onRedirectFinished {s : RouterState} (fromAddr toAddr : String) (c : Nat)
    (succeed : Bool) {s' : RouterState}
    (h : onRedirectFinished s fromAddr toAddr c succeed = some s') (hinv : Inv s) :
    Inv s' := by
  obtain ⟨hbase, hnemp⟩ := hinv
  obtain ⟨hbase1, hconns1, hn1, hex1, hmem1⟩ := base_ensure fromAddr true hbase
  obtain ⟨hbase2, hconns2, hn2, hex2, hmem2⟩ :=
    base_ensure toAddr false hbase1
  rw [onRedirectFinished] at h
  have hexc : ∀ x ∈ (ensureBackend (ensureBackend s fromAddr true).1 toAddr false).1.backends,
      removeBackendIfEmpty x = false ∨
      (x.uid = (ensureBackend s fromAddr true).2 ∧ x.connScore = 0) ∨
      (x.uid = (ensureBackend (ensureBackend s fromAddr true).1 toAddr false).2 ∧
        x.connScore = 0) := by
    intro x hx
    rcases hmem2 x hx with hx1 | ⟨rfl, hu⟩
    · rcases hmem1 x hx1 with hx0 | ⟨rfl, hu⟩
      · exact Or.inl (hnemp x hx0)
      · exact Or.inr (Or.inl ⟨hu.symm, rfl⟩)
    · exact Or.inr (Or.inr ⟨hu.symm, rfl⟩)
  cases hin : getConn (ensureBackend (ensureBackend s fromAddr true).1 toAddr false).1.conns c with
  | none =>
    rw [hin] at h
    cases h
  | some info =>
    rw [hin] at h
    cases succeed
    · simp only [Bool.false_eq_true, if_false] at h
      obtain ⟨hbase3, hconns3, hn3, hmem3⟩ := base_updateAdjust
        (fun b => { b with connScore := b.connScore + 1 }) false
        (fun b => rfl) (fun b => rfl) hbase2
      have hne3 : ∀ x ∈ (updateAdjust
            (ensureBackend (ensureBackend s fromAddr true).1 toAddr false).1
            (ensureBackend s fromAddr true).2
            (fun b => { b with connScore := b.connScore + 1 }) false).backends,
          x.uid ≠ (ensureBackend (ensureBackend s fromAddr true).1 toAddr false).2 →
          removeBackendIfEmpty x = false := by
        intro x hx hxu
        rcases hmem3 x hx with ⟨hxl, hxne⟩ | ⟨b, hb, hbu, rfl, _⟩
        · rcases hexc x hxl with hf | ⟨hq, _⟩ | ⟨hq, _⟩
          · exact hf
          · exact absurd hq hxne
          · exact absurd hq hxu
        · rcases hexc b hb with hf | ⟨_, hq⟩ | ⟨_, hq⟩
          · exact removeIfEmpty_false_incr hf
          · exact removeIfEmpty_false_of_pos (by simp [hq])
          · exact removeIfEmpty_false_of_pos (by simp [hq])
      obtain ⟨hbase4, hconns4, hn4, hmem4⟩ := base_updateAdjust
        (fun b => { b with connScore := b.connScore - 1 }) true
        (fun b => rfl) (fun b => rfl) hbase3
      have hinv4 : Inv (updateAdjust (updateAdjust
          (ensureBackend (ensureBackend s fromAddr true).1 toAddr false).1
          (ensureBackend s fromAddr true).2
          (fun b => { b with connScore := b.connScore + 1 }) false)
          (ensureBackend (ensureBackend s fromAddr true).1 toAddr false).2
          (fun b => { b with connScore := b.connScore - 1 }) true) := by
        refine ⟨hbase4, ?_⟩
        intro x hx
        rcases hmem4 x hx with ⟨hxl, hxne⟩ | ⟨b, hb, hbu, rfl, hcond⟩
        · exact hne3 x hxl hxne
        · exact hcond rfl
      cases h
      exact inv_setConn_none c _ rfl hinv4
    · simp only [if_true] at h
      rw [removeConnOp, addConnOp] at h
      obtain ⟨hbase3, hconns3, hn3, hmem3⟩ := base_updateAdjust
        (fun b => { b with connList := b.connList.erase c }) true
        (fun b => rfl) (fun b => rfl) hbase2
      have hne3 : ∀ x ∈ (updateAdjust
            (ensureBackend (ensureBackend s fromAddr true).1 toAddr false).1
            (ensureBackend s fromAddr true).2
            (fun b => { b with connList := b.connList.erase c }) true).backends,
          x.uid ≠ (ensureBackend (ensureBackend s fromAddr true).1 toAddr false).2 →
          removeBackendIfEmpty x = false := by
        intro x hx hxu
        rcases hmem3 x hx with ⟨hxl, hxne⟩ | ⟨b, hb, hbu, rfl, hcond⟩
        · rcases hexc x hxl with hf | ⟨hq, _⟩ | ⟨hq, _⟩
          · exact hf
          · exact absurd hq hxne
          · exact absurd hq hxu
        · exact hcond rfl
      obtain ⟨hbase4, hconns4, hn4, hmem4⟩ := base_updateAdjust
        (fun b => { b with connList := b.connList ++ [c] }) false
        (fun b => rfl) (fun b => rfl) hbase3
      have hinv4 : Inv (updateAdjust (updateAdjust
          (ensureBackend (ensureBackend s fromAddr true).1 toAddr false).1
          (ensureBackend s fromAddr true).2
          (fun b => { b with connList := b.connList.erase c }) true)
          (ensureBackend (ensureBackend s fromAddr true).1 toAddr false).2
          (fun b => { b with connList := b.connList ++ [c] }) false) := by
        refine ⟨hbase4, ?_⟩
        intro x hx
        rcases hmem4 x hx with ⟨hxl, hxne⟩ | ⟨b, hb, hbu, rfl, _⟩
        · exact hne3 x hxl hxne
        · exact removeIfEmpty_false_of_conns (by simp)
      cases h
      exact inv_setConn_none c _ rfl hinv4

/-- A bare pointer write followed by an adjust of the same element is one
mutate-then-adjust (the write and the re-sort happen in one critical section). -/
lemma updateAdjust_updateNoAdjust (s : RouterState) (u : Nat)
    (g f : BackendWrapper → BackendWrapper) (r : Bool)
    (hgu : ∀ x, (g x).uid = x.uid) :
    updateAdjust (updateNoAdjust s u g) u f r = updateAdjust s u (fun b => f (g b)) r := by
  rcases updateNoAdjust_cases s u g with ⟨hsp, heq⟩ | ⟨pre, b, post, hsp, hl, hbu, hbb⟩
  · rw [heq, updateAdjust, hsp, updateAdjust, hsp]
  · have hpre : ∀ x ∈ pre, x.uid ≠ u := splitByUid_first hsp
    have hsp2 : splitByUid (updateNoAdjust s u g).backends u = some (pre, g b, post) := by
      rw [hbb]
      exact splitByUid_middle (by rw [hgu]; exact hbu) hpre
    rw [updateAdjust, hsp2, updateAdjust, hsp, updateNoAdjust, hsp]

/-- `updateAdjust` ignores and preserves the conn store. -/
lemma updateAdjust_conns_irrel (s : RouterState) (cc : List (Nat × ConnInfo)) (u : Nat)
    (f : BackendWrapper → BackendWrapper) (r : Bool) :
    updateAdjust { s with conns := cc } u f r = { updateAdjust s u f r with conns := cc } := by
  have hb : ({ s with conns := cc } : RouterState).backends = s.backends := rfl
  cases hsp : splitByUid s.backends u with
  | none => rw [updateAdjust, hb, hsp, updateAdjust, hsp]
  | some v =>
    obtain ⟨pre, b, post⟩ := v
    rw [updateAdjust, hb, hsp, updateAdjust, hsp]

lemma getConn_mem {conns : List (Nat × ConnInfo)} {c : Nat} {info : ConnInfo}
    (h : getConn conns c = some info) : (c, info) ∈ conns := by
  rw [getConn] at h
  cases hf : conns.find? (fun p => decide (p.1 = c)) with
  | none => rw [hf] at h; cases h
  | some p =>
    obtain ⟨k, i⟩ := p
    rw [hf] at h
    have hmem := List.mem_of_find?_eq_some hf
    have hp := List.find?_some hf
    simp only [decide_eq_true_eq] at hp
    cases h
    rw [← hp]
    exact hmem

lemma inv_OnConnClosed {s : RouterState} (addr : String) (c : Nat) {s' : RouterState}
    (h : OnConnClosed s addr c = some s') (hinv : Inv s) : Inv s' := by
  obtain ⟨hbase, hnemp⟩ := hinv
  obtain ⟨hbase1, hconns1, hn1, hex1, hmem1⟩ := base_ensure addr true hbase
  rw [OnConnClosed] at h
  have hexc : ∀ x ∈ (ensureBackend s addr true).1.backends,
      removeBackendIfEmpty x = false ∨ x.uid = (ensureBackend s addr true).2 := by
    intro x hx
    rcases hmem1 x hx with hx0 | ⟨rfl, hu⟩
    · exact Or.inl (hnemp x hx0)
    · exact Or.inr hu.symm
  cases hin : getConn (ensureBackend s addr true).1.conns c with
  | none =>
    rw [hin] at h
    cases h
  | some info =>
    rw [hin] at h
    simp only [] at h
    -- the final removal discharges the defensive-insert excuse
    have hfinal : ∀ (t : RouterState) (f : BackendWrapper → BackendWrapper),
        (∀ b, (f b).uid = b.uid) → (∀ b, (f b).addr = b.addr) →
        InvBase t →
        (∀ x ∈ t.backends, removeBackendIfEmpty x = false ∨
          x.uid = (ensureBackend s addr true).2) →
        Inv (updateAdjust t (ensureBackend s addr true).2 f true) := by
      intro t f hfu hfa hbt hexct
      obtain ⟨hbY, hcY, hnY, hmY⟩ := base_updateAdjust f true hfu hfa hbt
      refine ⟨hbY, ?_⟩
      intro x hx
      rcases hmY x hx with ⟨hxl, hxne⟩ | ⟨b, hb, hbu, rfl, hcond⟩
      · rcases hexct x hxl with hf | hq
        · exact hf
        · exact absurd hq hxne
      · exact hcond rfl
    cases hrd : info.redirecting with
    | none =>
      rw [hrd] at h
      simp only [] at h
      rw [removeConnOp, updateAdjust_updateNoAdjust (ensureBackend s addr true).1
        (ensureBackend s addr true).2 (fun b => { b with connScore := b.connScore - 1 })
        (fun b => { b with connList := b.connList.erase c }) true (fun x => rfl)] at h
      cases h
      exact hfinal _
        (fun b => { b with connList := b.connList.erase c, connScore := b.connScore - 1 })
        (fun b => rfl) (fun b => rfl) hbase1 hexc
    | some rb =>
      obtain ⟨ru, raddr⟩ := rb
      rw [hrd] at h
      simp only [] at h
      have hentry : (c, info) ∈ s.conns := hconns1 ▸ getConn_mem hin
      have hrufresh : ru < s.nextUid := hbase.2.2.2.2.1 (c, info) hentry ru raddr hrd
      rcases updateNoAdjust_cases (ensureBackend s addr true).1 ru
          (fun b => { b with connScore := b.connScore - 1 }) with
        ⟨hspn, heqn⟩ | ⟨pre, bt, post, hspn, hlt, hbtu, hbbA⟩
      · -- the redirect target is no longer in the list: the pointer write has no effect
        rw [heqn] at h
        cases hlk : lookupBackend (ensureBackend s addr true).1.backends raddr true with
        | some lu =>
          rw [hlk] at h
          simp only [adjustOnly] at h
          rw [updateAdjust_conns_irrel, removeConnOp, updateAdjust_conns_irrel] at h
          cases h
          have hX := @base_updateAdjust (ensureBackend s addr true).1 lu id true
            (fun b => rfl) (fun b => rfl) hbase1
          have hexcX : ∀ x ∈ (updateAdjust (ensureBackend s addr true).1 lu id true).backends,
              removeBackendIfEmpty x = false ∨ x.uid = (ensureBackend s addr true).2 := by
            intro x hx
            rcases hX.2.2.2 x hx with ⟨hxl, _⟩ | ⟨b, hb, hbu, rfl, hcond⟩
            · exact hexc x hxl
            · exact Or.inl (hcond rfl)
          have hY := hfinal _ (fun b => { b with connList := b.connList.erase c })
            (fun b => rfl) (fun b => rfl) hX.1 hexcX
          have hYc : (updateAdjust (updateAdjust (ensureBackend s addr true).1 lu id true)
              (ensureBackend s addr true).2
              (fun b => { b with connList := b.connList.erase c }) true).conns =
              (ensureBackend s addr true).1.conns := by
            rw [(updateAdjust_fields _ _ _ _).1, (updateAdjust_fields _ _ _ _).1]
          have := @inv_setConn_none (updateAdjust
              (updateAdjust (ensureBackend s addr true).1 lu id true)
              (ensureBackend s addr true).2
              (fun b => { b with connList := b.connList.erase c }) true)
            c { info with redirecting := none } rfl hY
          rw [hYc] at this
          exact this
        | none =>
          rw [hlk] at h
          rw [removeConnOp, updateAdjust_conns_irrel] at h
          cases h
          have hY := hfinal _ (fun b => { b with connList := b.connList.erase c })
            (fun b => rfl) (fun b => rfl) hbase1 hexc
          have hYc : (updateAdjust (ensureBackend s addr true).1
              (ensureBackend s addr true).2
              (fun b => { b with connList := b.connList.erase c }) true).conns =
              (ensureBackend s addr true).1.conns := (updateAdjust_fields _ _ _ _).1
          have := @inv_setConn_none (updateAdjust (ensureBackend s addr true).1
              (ensureBackend s addr true).2
              (fun b => { b with connList := b.connList.erase c }) true)
            c { info with redirecting := none } rfl hY
          rw [hYc] at this
          exact this
      · -- the redirect target is still listed: its score is released and it is adjusted
        have hbtmem : bt ∈ (ensureBackend s addr true).1.backends := by
          rw [hlt]
          exact List.mem_append.mpr (Or.inr (List.mem_cons_self bt post))
        have hbts : bt ∈ s.backends := by
          rcases hmem1 bt hbtmem with hx | ⟨rfl, _⟩
          · exact hx
          · exact absurd (hbtu ▸ hrufresh) (by simp [freshWrapper])
        have hbtaddr : bt.addr = raddr :=
          hbase.2.2.2.2.2 (c, info) hentry ru raddr hrd bt hbts hbtu
        have haddrA : ((updateNoAdjust (ensureBackend s addr true).1 ru
            (fun b => { b with connScore := b.connScore - 1 })).backends.map
              (fun x => x.addr)).Nodup := by
          rw [hbbA]
          have : ((pre ++ { bt with connScore := bt.connScore - 1 } :: post).map
              (fun x => x.addr)) = ((pre ++ bt :: post).map (fun x => x.addr)) := by
            simp
          rw [this, ← hlt]
          exact hbase1.2.1
        have hbtA : ({ bt with connScore := bt.connScore - 1 }) ∈
            (updateNoAdjust (ensureBackend s addr true).1 ru
              (fun b => { b with connScore := b.connScore - 1 })).backends := by
          rw [hbbA]
          exact List.mem_append.mpr (Or.inr (List.mem_cons_self _ post))
        have hlk : lookupBackend (updateNoAdjust (ensureBackend s addr true).1 ru
            (fun b => { b with connScore := b.connScore - 1 })).backends raddr true =
            some ru := by
          have h0 := lookupBackend_of_mem true hbtA haddrA
          simp only [hbtaddr, hbtu] at h0
          exact h0
        rw [hlk] at h
        simp only [adjustOnly] at h
        rw [updateAdjust_conns_irrel,
          updateAdjust_updateNoAdjust (ensureBackend s addr true).1 ru
            (fun b => { b with connScore := b.connScore - 1 }) id true (fun x => rfl),
          removeConnOp, updateAdjust_conns_irrel] at h
        cases h
        have hX := @base_updateAdjust (ensureBackend s addr true).1 ru
          (fun b => id { b with connScore := b.connScore - 1 }) true
          (fun b => rfl) (fun b => rfl) hbase1
        have hexcX : ∀ x ∈ (updateAdjust (ensureBackend s addr true).1 ru
            (fun b => id { b with connScore := b.connScore - 1 }) true).backends,
            removeBackendIfEmpty x = false ∨ x.uid = (ensureBackend s addr true).2 := by
          intro x hx
          rcases hX.2.2.2 x hx with ⟨hxl, _⟩ | ⟨b, hb, hbu, rfl, hcond⟩
          · exact hexc x hxl
          · exact Or.inl (hcond rfl)
        have hY := hfinal _ (fun b => { b with connList := b.connList.erase c })
          (fun b => rfl) (fun b => rfl) hX.1 hexcX
        have hYcc : (updateNoAdjust (ensureBackend s addr true).1 ru
            (fun b => { b with connScore := b.connScore - 1 })).conns =
            (ensureBackend s addr true).1.conns := (updateNoAdjust_fields _ _ _).1
        have hYc : (updateAdjust (updateAdjust (ensureBackend s addr true).1 ru
            (fun b => id { b with connScore := b.connScore - 1 }) true)
            (ensureBackend s addr true).2
            (fun b => { b with connList := b.connList.erase c }) true).conns =
            (ensureBackend s addr true).1.conns := by
          rw [(updateAdjust_fields _ _ _ _).1, (updateAdjust_fields _ _ _ _).1]
        have hfin := @inv_setConn_none (updateAdjust
            (updateAdjust (ensureBackend s addr true).1 ru
              (fun b => id { b with connScore := b.connScore - 1 }) true)
            (ensureBackend s addr true).2
            (fun b => { b with connList := b.connList.erase c }) true)
          c { info with redirecting := none } rfl hY
        rw [hYc, ← hYcc] at hfin
        exact hfin

lemma removeIfEmpty_false_of_status {b : BackendWrapper}
    (h : b.health.status ≠ .CannotConnect) : removeBackendIfEmpty b = false := by
  rw [removeIfEmpty_false_iff]
  intro hc
  exact h hc.1

/-- With distinct uids, two listed wrappers with the same uid are the same. -/
lemma uid_unique {l : List BackendWrapper} (hnodup : (l.map (·.uid)).Nodup)
    {x w : BackendWrapper} (hx : x ∈ l) (hw : w ∈ l) (hxa : x.uid = w.uid) : x = w := by
  induction l with
  | nil => cases hx
  | cons a t ih =>
    rw [List.map_cons, List.nodup_cons] at hnodup
    rcases List.mem_cons.mp hx with rfl | hxt
    · rcases List.mem_cons.mp hw with rfl | hwt
      · rfl
      · exact absurd (hxa ▸ List.mem_map_of_mem (·.uid) hwt) hnodup.1
    · rcases List.mem_cons.mp hw with rfl | hwt
      · exact absurd (hxa ▸ List.mem_map_of_mem (·.uid) hxt) hnodup.1
      · exact ih hnodup.2 hxt hwt

lemma inv_applyHealth {s : RouterState} (addr : String) (hh : BackendHealth)
    (hinv : Inv s) : Inv (applyHealth s addr hh).1 := by
  obtain ⟨⟨hsorted, haddr, huid, hfresh, hrbf, hrbc⟩, hnemp⟩ := hinv
  rw [applyHealth]
  cases hlk : lookupBackend s.backends addr true with
  | none =>
    simp only []
    by_cases hst : hh.status ≠ BackendStatus.CannotConnect
    · rw [if_pos hst]
      obtain ⟨hs1, ha1, hu1, hfr1, hmem1, hbin1⟩ :=
        insert_facts
          ({ uid := s.nextUid, addr := addr, health := hh, connList := [], connScore := 0 }
            : BackendWrapper)
          (List.append_nil s.backends) rfl
          (fun x hx => lookupBackend_eq_none hlk x hx) hsorted haddr huid hfresh
      refine ⟨⟨hs1, ha1, hu1, hfr1, ?_, ?_⟩, ?_⟩
      · intro p hp ru raddr hrd
        exact Nat.lt_succ_of_lt (hrbf p hp ru raddr hrd)
      · intro p hp ru raddr hrd x hx hxu
        rcases hmem1 x hx with hxl | rfl
        · exact hrbc p hp ru raddr hrd x hxl hxu
        · exact absurd (hxu ▸ hrbf p hp ru raddr hrd) (lt_irrefl _)
      · intro x hx
        rcases hmem1 x hx with hxl | rfl
        · exact hnemp x hxl
        · exact removeIfEmpty_false_of_status hst
    · rw [if_neg hst]
      exact ⟨⟨hsorted, haddr, huid, hfresh, hrbf, hrbc⟩, hnemp⟩
  | some u =>
    simp only []
    cases hsp : splitByUid s.backends u with
    | none => exact ⟨⟨hsorted, haddr, huid, hfresh, hrbf, hrbc⟩, hnemp⟩
    | some v =>
      obtain ⟨pre, b, post⟩ := v
      simp only []
      by_cases heqh : equalsHealth b hh = true
      · rw [if_pos heqh]
        exact ⟨⟨hsorted, haddr, huid, hfresh, hrbf, hrbc⟩, hnemp⟩
      · rw [if_neg heqh]
        have hrw : ({ s with backends := adjustBackendList pre (setHealth b hh) post true }
            : RouterState) = updateAdjust s u (fun x => setHealth x hh) true := by
          rw [updateAdjust, hsp]
        rw [hrw]
        exact inv_updateAdjust _ true (fun x => rfl) (fun x => rfl)
          ⟨⟨hsorted, haddr, huid, hfresh, hrbf, hrbc⟩, hnemp⟩ (Or.inl rfl)

lemma inv_foldl_healthStep (entries : List (String × BackendHealth)) :
    ∀ (acc : RouterState × String), Inv acc.1 → Inv (entries.foldl healthStep acc).1 := by
  induction entries with
  | nil => exact fun acc h => h
  | cons e t ih =>
    intro acc h
    rw [List.foldl_cons]
    exact ih _ (inv_applyHealth e.1 e.2 h)

lemma inv_updateBackendHealth {s : RouterState} (hr : HealthResult) (hinv : Inv s) :
    Inv (updateBackendHealth s hr) := by
  rw [updateBackendHealth]
  cases he : hr.err with
  | some x => exact hinv
  | none =>
    simp only []
    have hfold := inv_foldl_healthStep
      (hr.backends ++ syntheticEntries s.backends (hr.backends.map Prod.fst))
      ({ s with observeError := none }, "") hinv
    by_cases hlen : ((hr.backends ++ syntheticEntries s.backends
        (hr.backends.map Prod.fst)).foldl healthStep
          ({ s with observeError := none }, "")).2.length > 0
    · rw [if_pos hlen]
      exact hfold
    · rw [if_neg hlen]
      exact hfold

lemma inv_rebalanceStep {s : RouterState} (cur : Nat) {s' : RouterState}
    (h : rebalanceStep s cur = some s') (hinv : Inv s) : Inv s' := by
  rw [rebalanceStep] at h
  cases hbz : s.backends.find? (fun b => decide (0 < b.connList.length)) with
  | none => rw [hbz] at h; cases h
  | some busiest =>
    rw [hbz] at h
    cases hil : s.backends.getLast? with
    | none => rw [hil] at h; cases h
    | some idlest =>
      rw [hil] at h
      simp only [] at h
      by_cases hcond : 5 * score busiest < 6 * (score idlest + 1)
      · rw [if_pos hcond] at h; cases h
      · rw [if_neg hcond] at h
        cases hcn : busiest.connList.find? (fun c => eligibleConn s.conns c cur) with
        | none => rw [hcn] at h; cases h
        | some c =>
          rw [hcn] at h
          simp only [] at h
          cases h
          have hidmem : idlest ∈ s.backends := List.mem_of_mem_getLast? hil
          have hinv1 : Inv (updateAdjust s busiest.uid
              (fun b => { b with connScore := b.connScore - 1 }) true) :=
            inv_updateAdjust _ true (fun b => rfl) (fun b => rfl) hinv (Or.inl rfl)
          obtain ⟨⟨hsorted, haddr, huid, hfresh, hrbf, hrbc⟩, hnemp⟩ := hinv
          obtain ⟨hb1, hc1, hn1, hm1⟩ := base_updateAdjust
            (fun b => { b with connScore := b.connScore - 1 }) true
            (fun b => rfl) (fun b => rfl) ⟨hsorted, haddr, huid, hfresh, hrbf, hrbc⟩
          have hinv2 : Inv (updateAdjust (updateAdjust s busiest.uid
              (fun b => { b with connScore := b.connScore - 1 }) true) idlest.uid
              (fun b => { b with connScore := b.connScore + 1 }) false) := by
            refine inv_updateAdjust _ false (fun b => rfl) (fun b => rfl) hinv1
              (Or.inr ?_)
            intro b hb _
            exact removeIfEmpty_false_incr (hinv1.2 b hb)
          obtain ⟨hb2, hc2, hn2, hm2⟩ := base_updateAdjust
            (fun b => { b with connScore := b.connScore + 1 }) false
            (fun b => rfl) (fun b => rfl) hinv1.1
          obtain ⟨⟨hs2, ha2, hu2, hf2, hrf2, hrc2⟩, hne2⟩ := hinv2
          -- the origin of every wrapper of the twice-adjusted list keeps uid and addr
          have horigin : ∀ x ∈ (updateAdjust (updateAdjust s busiest.uid
              (fun b => { b with connScore := b.connScore - 1 }) true) idlest.uid
              (fun b => { b with connScore := b.connScore + 1 }) false).backends,
              ∃ y ∈ s.backends, y.uid = x.uid ∧ y.addr = x.addr := by
            intro x hx
            have hstep : ∀ z ∈ (updateAdjust s busiest.uid
                (fun b => { b with connScore := b.connScore - 1 }) true).backends,
                ∃ y ∈ s.backends, y.uid = z.uid ∧ y.addr = z.addr := by
              intro z hz
              rcases hm1 z hz with ⟨hzl, _⟩ | ⟨b, hb, _, rfl, _⟩
              · exact ⟨z, hzl, rfl, rfl⟩
              · exact ⟨b, hb, rfl, rfl⟩
            rcases hm2 x hx with ⟨hxl, _⟩ | ⟨b, hb, _, rfl, _⟩
            · exact hstep x hxl
            · rcases hstep b hb with ⟨y, hy, hyu, hya⟩
              exact ⟨y, hy, hyu, hya⟩
          refine ⟨⟨hs2, ha2, hu2, hf2, ?_, ?_⟩, hne2⟩
          · intro p hp ru raddr hrd
            rcases setConn_mem hp with rfl | hpo
            · have : (some (idlest.uid, idlest.addr) : Option (Nat × String)) =
                  some (ru, raddr) := hrd
              cases this
              rw [hn2, hn1]
              exact hfresh idlest hidmem
            · exact hrf2 p hpo ru raddr hrd
          · intro p hp ru raddr hrd x hx hxu
            rcases setConn_mem hp with rfl | hpo
            · have heq : (some (idlest.uid, idlest.addr) : Option (Nat × String)) =
                  some (ru, raddr) := hrd
              cases heq
              rcases horigin x hx with ⟨y, hy, hyu, hya⟩
              have : y = idlest := uid_unique huid hy hidmem (by rw [hyu, hxu])
              rw [← hya, this]
            · exact hrc2 p hpo ru raddr hrd x hx hxu

lemma inv_rebalance {s : RouterState} (cur n : Nat) (hinv : Inv s) :
    Inv (rebalance s cur n) := by
  induction n generalizing s with
  | zero => exact hinv
  | succ m ih =>
    rw [rebalance]
    cases hs : rebalanceStep s cur with
    | none => exact hinv
    | some s2 => exact ih (inv_rebalanceStep cur hs hinv)

lemma inv_initialRouter : Inv initialRouter := by
  refine ⟨⟨?_, ?_, ?_, ?_, ?_, ?_⟩, ?_⟩
  · exact List.Pairwise.nil
  · exact List.nodup_nil
  · exact List.nodup_nil
  · intro b hb; cases hb
  · intro p hp; cases hp
  · intro p hp; cases hp
  · intro b hb; cases hb

/-- Every public operation preserves the invariant. -/
lemma inv_step {s s' : RouterState} (h : Step s s') (hinv : Inv s) : Inv s' := by
  cases h with
  | next excluded => exact inv_routeOnce excluded hinv
  | finish addr c succeed => exact inv_onCreateConn addr c succeed hinv
  | redirectSucceed fromAddr toAddr c s2 hop =>
    exact inv_onRedirectFinished fromAddr toAddr c true hop hinv
  | redirectFail fromAddr toAddr c s2 hop =>
    exact inv_onRedirectFinished fromAddr toAddr c false hop hinv
  | connClosed addr c s2 hop => exact inv_OnConnClosed addr c hop hinv
  | health hr => exact inv_updateBackendHealth hr hinv
  | rebalanceTick cur n => exact inv_rebalance cur n hinv

/-- Every reachable router state satisfies the invariant. -/
lemma inv_reachable {s : RouterState} (h : Reachable s) : Inv s := by
  induction h with
  | refl => exact inv_initialRouter
  | tail hsteps hstep ih => exact inv_step hstep ih

/-! ### Address-indexed observation of the list -/

lemma wrapperAt_of_mem {s : RouterState} {w : BackendWrapper} (hw : w ∈ s.backends)
    (haddr : AddrNodup s) : wrapperAt s w.addr = some w :=
  find_addr_of_mem hw haddr

lemma wrapperAt_eq_none {s : RouterState} {a : String}
    (h : ∀ x ∈ s.backends, x.addr ≠ a) : wrapperAt s a = none := by
  rw [wrapperAt, List.find?_eq_none]
  intro x hx
  simpa using h x hx

lemma wrapperAt_spec {s : RouterState} {a : String} {w : BackendWrapper}
    (h : wrapperAt s a = some w) : w ∈ s.backends ∧ w.addr = a := by
  rw [wrapperAt] at h
  have hmem := List.mem_of_find?_eq_some h
  have hp := List.find?_some h
  simp only [decide_eq_true_eq] at hp
  exact ⟨hmem, hp⟩

/-- `wrapperAt` sees lists only up to permutation when addresses are unique. -/
lemma wrapperAt_congr {s t : RouterState} (hperm : s.backends.Perm t.backends)
    (haddr : AddrNodup s) (a : String) : wrapperAt s a = wrapperAt t a := by
  have haddr' : AddrNodup t := by
    have h1 : (s.backends.map (fun x => x.addr)).Perm (t.backends.map (fun x => x.addr)) :=
      hperm.map (fun x => x.addr)
    exact h1.nodup haddr
  cases hf : wrapperAt s a with
  | some w =>
    rcases wrapperAt_spec hf with ⟨hw, hwa⟩
    rw [← hwa, wrapperAt_of_mem (hperm.mem_iff.mp hw) haddr']
  | none =>
    rw [wrapperAt, List.find?_eq_none] at hf
    rw [eq_comm, wrapperAt, List.find?_eq_none]
    intro x hx
    exact hf x (hperm.mem_iff.mpr hx)

/-- How one mutate-then-adjust changes the address-indexed view. -/
lemma wrapperAt_updateAdjust {s : RouterState} {u : Nat}
    {pre post : List BackendWrapper} {b : BackendWrapper}
    (f : BackendWrapper → BackendWrapper) (r : Bool)
    (hsp : splitByUid s.backends u = some (pre, b, post))
    (hfa : (f b).addr = b.addr)
    (haddr : AddrNodup s) :
    (∀ a, b.addr ≠ a → wrapperAt (updateAdjust s u f r) a = wrapperAt s a) ∧
    (r = true → removeBackendIfEmpty (f b) = true →
      wrapperAt (updateAdjust s u f r) b.addr = none) ∧
    ((r = true → removeBackendIfEmpty (f b) = false) →
      wrapperAt (updateAdjust s u f r) b.addr = some (f b)) := by
  rcases splitByUid_eq hsp with ⟨hl, hbu⟩
  have haddrrest : ((pre ++ post).map (fun x => x.addr)).Nodup := by
    have : (pre ++ post).Sublist (pre ++ b :: post) :=
      List.Sublist.append_left (List.sublist_cons_self b post) pre
    exact List.Nodup.sublist (List.Sublist.map _ this) (hl ▸ haddr)
  have hbnotin : ∀ x ∈ pre ++ post, x.addr ≠ b.addr := by
    intro x hx hxa
    have h2 : AddrNodup s := haddr
    rw [AddrNodup, hl, List.map_append, List.map_cons] at h2
    rcases List.nodup_cons.mp (List.nodup_middle.mp h2) with ⟨hnm, _⟩
    rw [← List.map_append] at hnm
    exact hnm (hxa ▸ List.mem_map_of_mem (·.addr) hx)
  have hres : (updateAdjust s u f r).backends = adjustBackendList pre (f b) post r := by
    rw [updateAdjust, hsp]
  refine ⟨?_, ?_, ?_⟩
  · intro a hba
    rcases adjustBackendList_cases pre (f b) post r with ⟨he, _, _⟩ | ⟨he, _⟩
    · cases hfo : wrapperAt s a with
      | some w =>
        rcases wrapperAt_spec hfo with ⟨hw, hwa⟩
        have hwne : w ≠ b := fun he2 => hba (he2 ▸ hwa)
        have hwrest : w ∈ pre ++ post := by
          rw [hl] at hw
          rcases List.mem_append.mp hw with hp | hp
          · exact List.mem_append.mpr (Or.inl hp)
          · rcases List.mem_cons.mp hp with rfl | hp
            · exact absurd rfl hwne
            · exact List.mem_append.mpr (Or.inr hp)
        rw [← hwa, wrapperAt, hres, he, find_addr_of_mem hwrest haddrrest]
      | none =>
        rw [wrapperAt, List.find?_eq_none] at hfo
        rw [wrapperAt, hres, he, List.find?_eq_none]
        intro x hx
        refine hfo x ?_
        rw [hl]
        rcases List.mem_append.mp hx with hp | hp
        · exact List.mem_append.mpr (Or.inl hp)
        · exact List.mem_append.mpr (Or.inr (List.mem_cons_of_mem b hp))
    · have hperm := adjustAt_perm pre (f b) post
      cases hfo : wrapperAt s a with
      | some w =>
        rcases wrapperAt_spec hfo with ⟨hw, hwa⟩
        have hwne : w ≠ b := fun he2 => hba (he2 ▸ hwa)
        have hwmem : w ∈ adjustAt pre (f b) post := by
          refine hperm.mem_iff.mpr ?_
          rw [hl] at hw
          rcases List.mem_append.mp hw with hp | hp
          · exact List.mem_append.mpr (Or.inl hp)
          · rcases List.mem_cons.mp hp with rfl | hp
            · exact absurd rfl hwne
            · exact List.mem_append.mpr (Or.inr (List.mem_cons_of_mem _ hp))
        have haddradj : ((adjustAt pre (f b) post).map (fun x => x.addr)).Nodup := by
          have h1 := hperm.map (fun x => x.addr)
          have h2 : (pre ++ f b :: post).map (fun x => x.addr) =
              (pre ++ b :: post).map (fun x => x.addr) := by
            simp [hfa]
          rw [h2] at h1
          exact h1.symm.nodup (hl ▸ haddr)
        rw [← hwa, wrapperAt, hres, he, find_addr_of_mem hwmem haddradj]
      | none =>
        rw [wrapperAt, List.find?_eq_none] at hfo
        rw [wrapperAt, hres, he, List.find?_eq_none]
        intro x hx
        have := hperm.mem_iff.mp hx
        rcases List.mem_append.mp this with hp | hp
        · exact hfo x (by rw [hl]; exact List.mem_append.mpr (Or.inl hp))
        · rcases List.mem_cons.mp hp with rfl | hp
          · intro hcon
            have : b.addr = a := by rw [← hfa]; simpa using hcon
            exact hba this
          · exact hfo x (by
              rw [hl]
              exact List.mem_append.mpr (Or.inr (List.mem_cons_of_mem b hp)))
  · intro hr hrm
    have hcd : (r && removeBackendIfEmpty (f b)) = true := by rw [hr, hrm]; rfl
    rw [wrapperAt, hres, adjustBackendList, if_pos hcd, List.find?_eq_none]
    intro x hx
    simpa using hbnotin x hx
  · intro hkeep
    rcases adjustBackendList_cases pre (f b) post r with ⟨_, hr, hrm⟩ | ⟨he, _⟩
    · rw [hkeep hr] at hrm
      cases hrm
    · have hperm := adjustAt_perm pre (f b) post
      have hfbmem : f b ∈ adjustAt pre (f b) post :=
        hperm.mem_iff.mpr (List.mem_append.mpr (Or.inr (List.mem_cons_self _ _)))
      have haddradj : ((adjustAt pre (f b) post).map (fun x => x.addr)).Nodup := by
        have h1 := hperm.map (fun x => x.addr)
        have h2 : (pre ++ f b :: post).map (fun x => x.addr) =
            (pre ++ b :: post).map (fun x => x.addr) := by
          simp [hfa]
        rw [h2] at h1
        exact h1.symm.nodup (hl ▸ haddr)
      have := find_addr_of_mem hfbmem haddradj
      rw [wrapperAt, hres, he, ← hfa]
      exact this

/-- Restoring a decremented score restores the wrapper. -/
lemma incr_decr_cancel (b : BackendWrapper) :
    ({ ({ b with connScore := b.connScore - 1 }) with
      connScore := ({ b with connScore := b.connScore - 1 }).connScore + 1 }) = b := by
  cases b with
  | mk u a h cl cs =>
    show BackendWrapper.mk u a h cl (cs - 1 + 1) = BackendWrapper.mk u a h cl cs
    congr 1
    omega

/-- Cancelling a reservation restores the wrapper. -/
lemma decr_incr_cancel (b : BackendWrapper) :
    ({ ({ b with connScore := b.connScore + 1 }) with
      connScore := ({ b with connScore := b.connScore + 1 }).connScore - 1 }) = b := by
  cases b with
  | mk u a h cl cs =>
    show BackendWrapper.mk u a h cl (cs + 1 - 1) = BackendWrapper.mk u a h cl cs
    congr 1
    omega

lemma connCount_foldl (l : List BackendWrapper) (n : Nat) :
    l.foldl (fun j b => j + b.connList.length) n =
      n + (l.map (fun b => b.connList.length)).sum := by
  induction l generalizing n with
  | nil => simp
  | cons a t ih =>
    rw [List.foldl_cons, List.map_cons, List.sum_cons, ih]
    omega

lemma ConnCount_eq_sum (s : RouterState) :
    ConnCount s = (s.backends.map (fun b => b.connList.length)).sum := by
  rw [ConnCount, connCount_foldl]
  omega

/-- Unfolding `updateAdjust` when the split of the pointer is known. -/
lemma updateAdjust_split_eq {s : RouterState} {u : Nat}
    {pre post : List BackendWrapper} {b : BackendWrapper}
    (f : BackendWrapper → BackendWrapper) (r : Bool)
    (hsp : splitByUid s.backends u = some (pre, b, post)) :
    updateAdjust s u f r = { s with backends := adjustBackendList pre (f b) post r } := by
  rw [updateAdjust, hsp]

/-- `Finish(false)` for the address of a listed backend is exactly a
decrement-then-adjust-with-removal of that backend. -/
lemma onCreateConn_false_eq {s1 : RouterState} {w : BackendWrapper}
    (hw : w ∈ s1.backends) (haddr : AddrNodup s1) (c : Nat) :
    onCreateConn s1 w.addr c false =
      updateAdjust s1 w.uid (fun x => { x with connScore := x.connScore - 1 }) true := by
  have hens : ensureBackend s1 w.addr true = (s1, w.uid) := by
    rw [ensureBackend, lookupBackend_of_mem true hw haddr]
  rw [onCreateConn, hens]
  rfl

/-- A defensive insert immediately mutated into an empty unhealthy wrapper and
adjusted with removal: the backend list and the conn store return to their
original values. -/
lemma insert_mutate_remove {s : RouterState} {g : BackendWrapper}
    (hga : ∀ x ∈ s.backends, x.uid ≠ g.uid)
    (f : BackendWrapper → BackendWrapper)
    (hrm : removeBackendIfEmpty (f g) = true) :
    (updateAdjust
        { s with backends := adjustAt [] g s.backends, nextUid := s.nextUid + 1 }
        g.uid f true).backends = s.backends ∧
    (updateAdjust
        { s with backends := adjustAt [] g s.backends, nextUid := s.nextUid + 1 }
        g.uid f true).conns = s.conns := by
  have hsp : splitByUid
      ({ s with backends := adjustAt [] g s.backends, nextUid := s.nextUid + 1 }
        : RouterState).backends g.uid =
      some (s.backends.takeWhile (fun x => decide (score g < score x)), g,
        s.backends.dropWhile (fun x => decide (score g < score x))) := by
    show splitByUid
      (s.backends.takeWhile (fun x => decide (score g < score x)) ++
        g :: s.backends.dropWhile (fun x => decide (score g < score x))) g.uid = _
    exact splitByUid_middle rfl
      (fun x hx => hga x (List.Sublist.mem hx (List.takeWhile_sublist _)))
  constructor
  · rw [updateAdjust_split_eq f true hsp]
    show adjustBackendList (s.backends.takeWhile (fun x => decide (score g < score x)))
      (f g) (s.backends.dropWhile (fun x => decide (score g < score x))) true = s.backends
    rw [adjustBackendList, if_pos (by rw [hrm]; rfl)]
    exact List.takeWhile_append_dropWhile _ _
  · rw [updateAdjust_split_eq f true hsp]

/-- `OnConnClosed` on an unregistered address with a registered, non-redirecting
connection: the defensive insert is mutated into an empty unhealthy wrapper and
removed again by the final adjust, so the list and the conn store are
unchanged. -/
lemma onConnClosed_ghost_spec {s : RouterState} {c : Nat} {info : ConnInfo}
    {ghost : String}
    (hfresh : ∀ x ∈ s.backends, x.uid < s.nextUid)
    (hlk : lookupBackend s.backends ghost true = none)
    (hreg : getConn s.conns c = some info) (hrd : info.redirecting = none) :
    ∃ s', OnConnClosed s ghost c = some s' ∧
      s'.backends = s.backends ∧ s'.conns = s.conns := by
  have heq : ensureBackend s ghost true =
      ({ s with backends := adjustAt [] (freshWrapper s.nextUid ghost) s.backends,
                nextUid := s.nextUid + 1 }, s.nextUid) := by
    rw [ensureBackend, hlk]
  have hone : OnConnClosed s ghost c =
      some (removeConnOp (updateNoAdjust
        { s with backends := adjustAt [] (freshWrapper s.nextUid ghost) s.backends,
                 nextUid := s.nextUid + 1 }
        s.nextUid (fun b => { b with connScore := b.connScore - 1 })) s.nextUid c) := by
    rw [OnConnClosed, heq]
    simp only []
    rw [hreg]
    simp only [hrd]
  have hga : ∀ x ∈ s.backends, x.uid ≠ (freshWrapper s.nextUid ghost).uid := by
    intro x hx h2
    exact absurd (hfresh x hx) (by rw [h2]; exact lt_irrefl _)
  have hkey := @insert_mutate_remove s (freshWrapper s.nextUid ghost) hga
    (fun b => { ({ b with connScore := b.connScore - 1 } : BackendWrapper) with
      connList := ({ b with connScore := b.connScore - 1 } : BackendWrapper).connList.erase c })
    rfl
  rw [hone, removeConnOp, updateAdjust_updateNoAdjust _ _
    (fun b => { b with connScore := b.connScore - 1 })
    (fun b => { b with connList := b.connList.erase c }) true (fun x => rfl)]
  exact ⟨_, rfl, hkey.1, hkey.2⟩

/-- A snapshot entry for one address leaves the wrapper registered at any other
address unchanged. -/
lemma wrapperAt_applyHealth_other {t : RouterState} {k : String} {hh : BackendHealth}
    (a : String) (hka : k ≠ a) (hinv : Inv t) :
    wrapperAt (applyHealth t k hh).1 a = wrapperAt t a := by
  obtain ⟨⟨hsorted, haddr, huid, hfresh, hrbf, hrbc⟩, hnemp⟩ := hinv
  rw [applyHealth]
  cases hlk : lookupBackend t.backends k true with
  | none =>
    simp only []
    by_cases hst : hh.status ≠ BackendStatus.CannotConnect
    · rw [if_pos hst]
      obtain ⟨hs1, ha1, hu1, hfr1, hmem1, hbin1⟩ :=
        insert_facts
          ({ uid := t.nextUid, addr := k, health := hh, connList := [], connScore := 0 }
            : BackendWrapper)
          (List.append_nil t.backends) rfl
          (fun x hx => lookupBackend_eq_none hlk x hx) hsorted haddr huid hfresh
      cases hfo : wrapperAt t a with
      | some w =>
        rcases wrapperAt_spec hfo with ⟨hw, hwa⟩
        have hperm := adjustAt_perm t.backends
          ({ uid := t.nextUid, addr := k, health := hh, connList := [], connScore := 0 }
            : BackendWrapper) []
        have hwmem : w ∈ adjustAt t.backends
            ({ uid := t.nextUid, addr := k, health := hh, connList := [], connScore := 0 }
              : BackendWrapper) [] :=
          hperm.mem_iff.mpr (List.mem_append.mpr (Or.inl hw))
        rw [← hwa]
        exact find_addr_of_mem hwmem ha1
      | none =>
        rw [wrapperAt, List.find?_eq_none] at hfo
        rw [wrapperAt, List.find?_eq_none]
        intro x hx
        rcases hmem1 x hx with hxl | rfl
        · exact hfo x hxl
        · simp only [decide_eq_true_eq]
          exact hka
    · rw [if_neg hst]
  | some u =>
    simp only []
    cases hsp : splitByUid t.backends u with
    | none => rfl
    | some v =>
      obtain ⟨pre, b, post⟩ := v
      simp only []
      by_cases heqh : equalsHealth b hh = true
      · rw [if_pos heqh]
      · rw [if_neg heqh]
        rcases lookupBackend_forward_spec hlk with ⟨w, hwmem, hwu, hwk⟩
        rcases splitByUid_eq hsp with ⟨hl, hbu⟩
        have hbmem : b ∈ t.backends := by
          rw [hl]
          exact List.mem_append.mpr (Or.inr (List.mem_cons_self _ _))
        have hbw : b = w := uid_unique huid hbmem hwmem (by rw [hbu, hwu])
        have hrw : ({ t with backends := adjustBackendList pre (setHealth b hh) post true }
            : RouterState) = updateAdjust t u (fun x => setHealth x hh) true := by
          rw [updateAdjust, hsp]
        show wrapperAt
          ({ t with backends := adjustBackendList pre (setHealth b hh) post true }
            : RouterState) a = wrapperAt t a
        rw [hrw]
        exact (wrapperAt_updateAdjust (fun x => setHealth x hh) true hsp rfl haddr).1 a
          (by rw [hbw, hwk]; exact hka)

/-- A snapshot entry for an unregistered address inserts a fresh zero-score
wrapper carrying the entry's health iff the status is not `CannotConnect`. -/
lemma wrapperAt_applyHealth_insert {t : RouterState} {a : String} {hh : BackendHealth}
    (hinv : Inv t) (habs : wrapperAt t a = none) :
    wrapperAt (applyHealth t a hh).1 a =
      (if hh.status ≠ BackendStatus.CannotConnect then
        some ⟨t.nextUid, a, hh, [], 0⟩ else none) := by
  obtain ⟨⟨hsorted, haddr, huid, hfresh, hrbf, hrbc⟩, hnemp⟩ := hinv
  have hno : ∀ x ∈ t.backends, x.addr ≠ a := by
    intro x hx
    rw [wrapperAt, List.find?_eq_none] at habs
    simpa using habs x hx
  have hlk : lookupBackend t.backends a true = none := lookupBackend_none true hno
  rw [applyHealth, hlk]
  simp only []
  by_cases hst : hh.status ≠ BackendStatus.CannotConnect
  · rw [if_pos hst, if_pos hst]
    obtain ⟨hs1, ha1, hu1, hfr1, hmem1, hbin1⟩ :=
      insert_facts
        ({ uid := t.nextUid, addr := a, health := hh, connList := [], connScore := 0 }
          : BackendWrapper)
        (List.append_nil t.backends) rfl hno hsorted haddr huid hfresh
    exact find_addr_of_mem hbin1 ha1
  · rw [if_neg hst, if_neg hst]
    exact habs

/-- Folding snapshot entries none of which mention `a` leaves the wrapper
registered at `a` unchanged. -/
lemma wrapperAt_foldl_other (a : String) :
    ∀ (entries : List (String × BackendHealth)), (∀ e ∈ entries, e.1 ≠ a) →
      ∀ (acc : RouterState × String), Inv acc.1 →
        wrapperAt (entries.foldl healthStep acc).1 a = wrapperAt acc.1 a := by
  intro entries
  induction entries with
  | nil => exact fun _ acc _ => rfl
  | cons e t ih =>
    intro hk acc hacc
    rw [List.foldl_cons,
      ih (fun x hx => hk x (List.mem_cons_of_mem e hx)) (healthStep acc e)
        (inv_applyHealth e.1 e.2 hacc)]
    exact wrapperAt_applyHealth_other a (hk e (List.mem_cons_self e t)) hacc

/-- Synthetic entries are keyed by addresses of registered backends. -/
lemma syntheticEntries_keys {l : List BackendWrapper} {keys : List String}
    {e : String × BackendHealth} (he : e ∈ syntheticEntries l keys) :
    ∃ b ∈ l, e.1 = b.addr := by
  rw [syntheticEntries] at he
  rcases List.mem_filterMap.mp he with ⟨b, hb, hbe⟩
  by_cases hc : keys.contains b.addr
  · rw [if_pos hc] at hbe
    cases hbe
  · rw [if_neg hc] at hbe
    cases hbe
    exact ⟨b, hb, rfl⟩

/-- Connection-count bookkeeping of one mutate-then-adjust: the removal case
only fires on an empty conn list, so one identity covers both cases. -/
lemma sum_updateAdjust {s : RouterState} {u : Nat}
    {pre post : List BackendWrapper} {b : BackendWrapper}
    (f : BackendWrapper → BackendWrapper) (r : Bool)
    (hsp : splitByUid s.backends u = some (pre, b, post)) :
    ((updateAdjust s u f r).backends.map (fun x => x.connList.length)).sum
        + b.connList.length
      = (s.backends.map (fun x => x.connList.length)).sum
        + (f b).connList.length := by
  rcases splitByUid_eq hsp with ⟨hl, hbu⟩
  rw [updateAdjust_split_eq f r hsp]
  show ((adjustBackendList pre (f b) post r).map (fun x => x.connList.length)).sum
      + b.connList.length
    = (s.backends.map (fun x => x.connList.length)).sum + (f b).connList.length
  rcases adjustBackendList_cases pre (f b) post r with ⟨he, _, hrm⟩ | ⟨he, _⟩
  · have hfb0 : (f b).connList = [] := ((removeIfEmpty_iff _).mp hrm).2.1
    rw [he, hl, hfb0]
    simp only [List.map_append, List.sum_append, List.map_cons, List.sum_cons,
      List.length_nil]
    omega
  · rw [he, hl]
    have hps := ((adjustAt_perm pre (f b) post).map (fun x => x.connList.length)).sum_eq
    rw [hps]
    simp only [List.map_append, List.sum_append, List.map_cons, List.sum_cons]
    omega

/-- `onRedirectFinished(..., true)` on a state where the source and target
addresses resolve to distinct listed wrappers: the connection moves from the
source's conn list to the target's and the phase becomes `RedirectEnd`. -/
lemma onRedirectSucceed_prepared {s1 : RouterState} {sa ta : String} {c : Nat}
    {S T : BackendWrapper} {info : ConnInfo}
    (hbase : InvBase s1)
    (hS : wrapperAt s1 sa = some S) (hT : wrapperAt s1 ta = some T)
    (hst : sa ≠ ta)
    (hgc : getConn s1.conns c = some info) :
    ∃ s2, onRedirectFinished s1 sa ta c true = some s2 ∧
      wrapperAt s2 ta = some { T with connList := T.connList ++ [c] } ∧
      (∀ w, wrapperAt s2 sa = some w → w = { S with connList := S.connList.erase c }) ∧
      getConn s2.conns c = some { info with phase := .RedirectEnd, redirecting := none } ∧
      (s2.backends.map (fun x => x.connList.length)).sum + S.connList.length
          + T.connList.length
        = (s1.backends.map (fun x => x.connList.length)).sum
          + (S.connList.erase c).length + (T.connList ++ [c]).length := by
  obtain ⟨hSmem, hSaddr⟩ := wrapperAt_spec hS
  obtain ⟨hTmem, hTaddr⟩ := wrapperAt_spec hT
  have hTS : T.addr ≠ S.addr := by
    rw [hTaddr, hSaddr]
    exact fun he => hst he.symm
  have hens1 : ensureBackend s1 sa true = (s1, S.uid) := by
    have h0 : lookupBackend s1.backends S.addr true = some S.uid :=
      lookupBackend_of_mem true hSmem hbase.2.1
    rw [hSaddr] at h0
    rw [ensureBackend, h0]
  have hens2 : ensureBackend s1 ta false = (s1, T.uid) := by
    have h0 : lookupBackend s1.backends T.addr false = some T.uid :=
      lookupBackend_of_mem false hTmem hbase.2.1
    rw [hTaddr] at h0
    rw [ensureBackend, h0]
  have heq : onRedirectFinished s1 sa ta c true =
      some ({ (updateAdjust (updateAdjust s1 S.uid
          (fun b => { b with connList := b.connList.erase c }) true) T.uid
          (fun b => { b with connList := b.connList ++ [c] }) false) with
        conns := setConn (updateAdjust (updateAdjust s1 S.uid
          (fun b => { b with connList := b.connList.erase c }) true) T.uid
          (fun b => { b with connList := b.connList ++ [c] }) false).conns c
          { info with phase := .RedirectEnd, redirecting := none } } : RouterState) := by
    rw [onRedirectFinished, hens1]
    simp only []
    rw [hens2]
    simp only []
    rw [hgc]
    simp only []
    rw [if_pos trivial, removeConnOp, addConnOp]
  obtain ⟨preS, postS, hspS, hlS⟩ := splitByUid_of_mem hSmem hbase.2.2.1
  have hviewS := wrapperAt_updateAdjust
    (fun b => { b with connList := b.connList.erase c }) true hspS rfl hbase.2.1
  have hbaseS := @base_updateAdjust s1 S.uid
    (fun b => { b with connList := b.connList.erase c }) true
    (fun b => rfl) (fun b => rfl) hbase
  have hWT : wrapperAt (updateAdjust s1 S.uid
      (fun b => { b with connList := b.connList.erase c }) true) T.addr = some T := by
    rw [hviewS.1 T.addr (fun he => hTS he.symm), hTaddr]
    exact hT
  obtain ⟨preT, postT, hspT, hlT⟩ :=
    splitByUid_of_mem (wrapperAt_spec hWT).1 hbaseS.1.2.2.1
  have hviewT := wrapperAt_updateAdjust
    (fun b => { b with connList := b.connList ++ [c] }) false hspT rfl hbaseS.1.2.1
  refine ⟨_, heq, ?_, ?_, getConn_setConn_self _ c _, ?_⟩
  · have h1 : wrapperAt (updateAdjust (updateAdjust s1 S.uid
        (fun b => { b with connList := b.connList.erase c }) true) T.uid
        (fun b => { b with connList := b.connList ++ [c] }) false) T.addr =
        some ({ T with connList := T.connList ++ [c] } : BackendWrapper) :=
      hviewT.2.2 (fun h => Bool.noConfusion h)
    rw [← hTaddr]
    exact h1
  · intro w hw
    have hw2 : wrapperAt (updateAdjust (updateAdjust s1 S.uid
        (fun b => { b with connList := b.connList.erase c }) true) T.uid
        (fun b => { b with connList := b.connList ++ [c] }) false) S.addr = some w := by
      rw [hSaddr]
      exact hw
    rw [hviewT.1 S.addr hTS] at hw2
    cases hrm : removeBackendIfEmpty ({ S with connList := S.connList.erase c }
        : BackendWrapper) with
    | false =>
      rw [hviewS.2.2 (fun _ => hrm)] at hw2
      cases hw2
      rfl
    | true =>
      rw [hviewS.2.1 rfl hrm] at hw2
      cases hw2
  · have e1 := sum_updateAdjust (fun b => { b with connList := b.connList.erase c }) true hspS
    have e2 := sum_updateAdjust (fun b => { b with connList := b.connList ++ [c] }) false hspT
    simp only [] at e1 e2
    show ((updateAdjust (updateAdjust s1 S.uid
        (fun b => { b with connList := b.connList.erase c }) true) T.uid
        (fun b => { b with connList := b.connList ++ [c] }) false).backends.map
          (fun x => x.connList.length)).sum + S.connList.length + T.connList.length
      = (s1.backends.map (fun x => x.connList.length)).sum
        + (S.connList.erase c).length + (T.connList ++ [c]).length
    omega

/-- `onRedirectFinished(..., false)` on a state where the source and target
addresses resolve to distinct listed wrappers: the compensating swap restores
one unit of `connScore` to the source and removes one from the target, and the
phase becomes `RedirectFail`. -/
lemma onRedirectFail_prepared {s1 : RouterState} {sa ta : String} {c : Nat}
    {S T : BackendWrapper} {info : ConnInfo}
    (hbase : InvBase s1)
    (hS : wrapperAt s1 sa = some S) (hT : wrapperAt s1 ta = some T)
    (hst : sa ≠ ta)
    (hgc : getConn s1.conns c = some info)
    (hTkeep : removeBackendIfEmpty ({ T with connScore := T.connScore - 1 }
      : BackendWrapper) = false) :
    ∃ s3, onRedirectFinished s1 sa ta c false = some s3 ∧
      wrapperAt s3 sa = some ({ S with connScore := S.connScore + 1 } : BackendWrapper) ∧
      wrapperAt s3 ta = some ({ T with connScore := T.connScore - 1 } : BackendWrapper) ∧
      (∀ a, sa ≠ a → ta ≠ a → wrapperAt s3 a = wrapperAt s1 a) ∧
      getConn s3.conns c =
        some { info with phase := .RedirectFail, redirecting := none } := by
  obtain ⟨hSmem, hSaddr⟩ := wrapperAt_spec hS
  obtain ⟨hTmem, hTaddr⟩ := wrapperAt_spec hT
  have hTS : T.addr ≠ S.addr := by
    rw [hTaddr, hSaddr]
    exact fun he => hst he.symm
  have hens1 : ensureBackend s1 sa true = (s1, S.uid) := by
    have h0 : lookupBackend s1.backends S.addr true = some S.uid :=
      lookupBackend_of_mem true hSmem hbase.2.1
    rw [hSaddr] at h0
    rw [ensureBackend, h0]
  have hens2 : ensureBackend s1 ta false = (s1, T.uid) := by
    have h0 : lookupBackend s1.backends T.addr false = some T.uid :=
      lookupBackend_of_mem false hTmem hbase.2.1
    rw [hTaddr] at h0
    rw [ensureBackend, h0]
  have heq : onRedirectFinished s1 sa ta c false =
      some ({ (updateAdjust (updateAdjust s1 S.uid
          (fun b => { b with connScore := b.connScore + 1 }) false) T.uid
          (fun b => { b with connScore := b.connScore - 1 }) true) with
        conns := setConn (updateAdjust (updateAdjust s1 S.uid
          (fun b => { b with connScore := b.connScore + 1 }) false) T.uid
          (fun b => { b with connScore := b.connScore - 1 }) true).conns c
          { info with phase := .RedirectFail, redirecting := none } } : RouterState) := by
    rw [onRedirectFinished, hens1]
    simp only []
    rw [hens2]
    simp only []
    rw [hgc]
    simp only []
    rw [if_neg (fun h : false = true => Bool.noConfusion h)]
  obtain ⟨preS, postS, hspS, hlS⟩ := splitByUid_of_mem hSmem hbase.2.2.1
  have hviewS := wrapperAt_updateAdjust
    (fun b => { b with connScore := b.connScore + 1 }) false hspS rfl hbase.2.1
  have hbaseS := @base_updateAdjust s1 S.uid
    (fun b => { b with connScore := b.connScore + 1 }) false
    (fun b => rfl) (fun b => rfl) hbase
  have hWT : wrapperAt (updateAdjust s1 S.uid
      (fun b => { b with connScore := b.connScore + 1 }) false) T.addr = some T := by
    rw [hviewS.1 T.addr (fun he => hTS he.symm), hTaddr]
    exact hT
  obtain ⟨preT, postT, hspT, hlT⟩ :=
    splitByUid_of_mem (wrapperAt_spec hWT).1 hbaseS.1.2.2.1
  have hviewT := wrapperAt_updateAdjust
    (fun b => { b with connScore := b.connScore - 1 }) true hspT rfl hbaseS.1.2.1
  have hS3 : wrapperAt (updateAdjust (updateAdjust s1 S.uid
      (fun b => { b with connScore := b.connScore + 1 }) false) T.uid
      (fun b => { b with connScore := b.connScore - 1 }) true) S.addr =
      some ({ S with connScore := S.connScore + 1 } : BackendWrapper) := by
    rw [hviewT.1 S.addr hTS]
    exact hviewS.2.2 (fun h => Bool.noConfusion h)
  have hT3 : wrapperAt (updateAdjust (updateAdjust s1 S.uid
      (fun b => { b with connScore := b.connScore + 1 }) false) T.uid
      (fun b => { b with connScore := b.connScore - 1 }) true) T.addr =
      some ({ T with connScore := T.connScore - 1 } : BackendWrapper) :=
    hviewT.2.2 (fun _ => hTkeep)
  refine ⟨_, heq, ?_, ?_, ?_, getConn_setConn_self _ c _⟩
  · rw [← hSaddr]
    exact hS3
  · rw [← hTaddr]
    exact hT3
  · intro a hsaa htaa
    have h4 : wrapperAt (updateAdjust (updateAdjust s1 S.uid
        (fun b => { b with connScore := b.connScore + 1 }) false) T.uid
        (fun b => { b with connScore := b.connScore - 1 }) true) a = wrapperAt s1 a := by
      rw [hviewT.1 a (by rw [hTaddr]; exact htaa), hviewS.1 a (by rw [hSaddr]; exact hsaa)]
    exact h4

/-- The skewed example state is reachable. -/
lemma reachable_exSkewed : Reachable exSkewed :=
  Relation.ReflTransGen.tail (Relation.ReflTransGen.tail (Relation.ReflTransGen.tail
    (Relation.ReflTransGen.tail (Relation.ReflTransGen.tail
      (Relation.ReflTransGen.single (Step.health initialRouter exSnapA))
      (Step.next (updateBackendHealth initialRouter exSnapA) []))
      (Step.finish (routeOnce (updateBackendHealth initialRouter exSnapA) []).2.2
        "a" 1 true))
      (Step.next (onCreateConn
        (routeOnce (updateBackendHealth initialRouter exSnapA) []).2.2 "a" 1 true) []))
      (Step.finish (routeOnce (onCreateConn
        (routeOnce (updateBackendHealth initialRouter exSnapA) []).2.2 "a" 1 true) []).2.2
        "a" 2 true))
    (Step.health exTwoConns exSnapB)

/-- The example state with a redirect in flight is reachable. -/
lemma reachable_exRedir : Reachable exRedir :=
  Relation.ReflTransGen.tail reachable_exSkewed (Step.rebalanceTick exSkewed 100 1)

/-! ### The claimed properties -/

/-- C1: after every public router operation (`Next`, `Finish`,
`OnRedirectSucceed`, `OnRedirectFail`, `OnConnClosed`, `updateBackendHealth`,
`rebalance`) the backend list is sorted by `score()` descending, and the re-sort
of `adjustBackendList` never moves a backend past one of equal score: every
element whose side relative to the moved backend changes differs strictly in
score. -/
theorem backend_list_sorted_and_stable :
    (∀ s : RouterState, Reachable s → SortedDesc s.backends) ∧
    (∀ (pre : List BackendWrapper) (b : BackendWrapper) (post : List BackendWrapper),
      ∃ pre2 post2, adjustAt pre b post = pre2 ++ b :: post2 ∧
        pre2 ++ post2 = pre ++ post ∧
        (∀ x ∈ pre2, x ∈ pre ∨ score b < score x) ∧
        (∀ x ∈ post2, x ∈ post ∨ score x < score b)) :=
  ⟨fun _ h => (inv_reachable h).1.1, adjustAt_decomp⟩

/-- Witness for C1: the sortedness conclusion at a concrete reachable state (a
snapshot with two healthy backends followed by one selection). -/
theorem backend_list_sorted_and_stable_witness :
    SortedDesc ((routeOnce exState []).2.2.backends) :=
  backend_list_sorted_and_stable.1 _
    (Relation.ReflTransGen.tail
      (Relation.ReflTransGen.single (Step.health initialRouter exSnapshot))
      (Step.next exState []))

/-- C4: no reachable state keeps a backend that cannot be connected to, holds no
connection and expects none. -/
theorem no_empty_unhealthy_in_list :
    ∀ s : RouterState, Reachable s → ∀ b ∈ s.backends,
      ¬(b.health.status = BackendStatus.CannotConnect ∧ b.connList = [] ∧
        b.connScore ≤ 0) := by
  intro s h b hb
  have hne := (inv_reachable h).2 b hb
  rw [removeIfEmpty_false_iff] at hne
  exact hne

/-- Witness for C4 at a concrete reachable state and backend. -/
theorem no_empty_unhealthy_witness :
    ¬((⟨0, "a", exHealthy, [], 0⟩ : BackendWrapper).health.status =
        BackendStatus.CannotConnect ∧
      (⟨0, "a", exHealthy, [], 0⟩ : BackendWrapper).connList = [] ∧
      (⟨0, "a", exHealthy, [], 0⟩ : BackendWrapper).connScore ≤ 0) :=
  no_empty_unhealthy_in_list exState
    (Relation.ReflTransGen.single (Step.health initialRouter exSnapshot))
    ⟨0, "a", exHealthy, [], 0⟩ (by decide)

/-- C7 as stated is refuted by the code: with an empty backend list and an
observer attached, `routeOnce` still requests `observer.Refresh()` (the claim
says no refresh is requested when the list is empty). -/
theorem routeOnce_refresh_on_empty_counterexample :
    ({ initialRouter with hasObserver := true } : RouterState).backends = [] ∧
    (routeOnce { initialRouter with hasObserver := true } []).2.1 = true ∧
    (routeOnce { initialRouter with hasObserver := true } []).1 =
      RouteResult.noBackend := by
  decide

/-- C7 amended: with no latched observe error, `ErrNoBackend` is returned iff no
listed backend is healthy and non-excluded, and `observer.Refresh()` is requested
iff additionally an observer is attached; whether the list is empty or the
backends are merely excluded makes no difference. -/
theorem refresh_iff_no_backend {s : RouterState} (ex : List String)
    (hobs : s.observeError = none) :
    ((routeOnce s ex).1 = RouteResult.noBackend ↔
      ∀ b ∈ s.backends, qualifies b ex = false) ∧
    ((routeOnce s ex).2.1 = true ↔
      (s.hasObserver = true ∧ ∀ b ∈ s.backends, qualifies b ex = false)) := by
  rcases routeOnce_cases s ex with ⟨e, he, heq⟩ | ⟨_, hpick, heq⟩ |
    ⟨pre, b, post, _, hpick, heq⟩
  · rw [he] at hobs
    cases hobs
  · rw [heq]
    constructor
    · exact ⟨fun _ => pickLast_none hpick, fun _ => rfl⟩
    · exact ⟨fun hr => ⟨hr, pickLast_none hpick⟩, fun hp => hp.1⟩
  · rw [heq]
    rcases pickLast_spec hpick with ⟨hl, hq, _⟩
    have hbmem : b ∈ s.backends := by
      rw [hl]
      exact List.mem_append.mpr (Or.inr (List.mem_cons_self b post))
    constructor
    · constructor
      · intro hco
        cases hco
      · intro hall
        rw [hall b hbmem] at hq
        cases hq
    · constructor
      · intro hco
        cases hco
      · intro hp
        rw [hp.2 b hbmem] at hq
        cases hq

/-- Witness for the amended C7: both backends excluded still yields
`ErrNoBackend`. -/
theorem refresh_iff_no_backend_witness :
    (routeOnce exState ["a", "b"]).1 = RouteResult.noBackend :=
  (@refresh_iff_no_backend exState ["a", "b"] rfl).1.mpr (by decide)

/-- C2: with no latched observe error, a successful `routeOnce` returns the
first healthy non-excluded backend counting from the tail (everything nearer the
tail fails the test), bumps its `connScore` and re-adjusts the list; conversely,
whenever some listed backend qualifies, the selection succeeds. -/
theorem routeOnce_selects_tail_first {s : RouterState} (ex : List String)
    (hobs : s.observeError = none) :
    (∀ b r s', routeOnce s ex = (.found b, r, s') →
      b.health.status = BackendStatus.Healthy ∧ b.addr ∉ ex ∧
      ∃ pre b₀ post, s.backends = pre ++ b₀ :: post ∧
        qualifies b₀ ex = true ∧ (∀ x ∈ post, qualifies x ex = false) ∧
        b = { b₀ with connScore := b₀.connScore + 1 } ∧
        s'.backends = adjustAt pre b post ∧ s'.conns = s.conns) ∧
    ((∃ b ∈ s.backends, qualifies b ex = true) →
      ∃ b r s', routeOnce s ex = (.found b, r, s')) := by
  rcases routeOnce_cases s ex with ⟨e, he, heq⟩ | ⟨_, hpick, heq⟩ |
    ⟨pre, b₀, post, _, hpick, heq⟩
  · rw [he] at hobs
    cases hobs
  · constructor
    · intro b r s' h
      rw [heq] at h
      cases h
    · intro hex
      rcases hex with ⟨b, hb, hq⟩
      rw [pickLast_none hpick b hb] at hq
      cases hq
  · constructor
    · intro b r s' h
      rw [heq] at h
      simp only [Prod.mk.injEq, RouteResult.found.injEq] at h
      obtain ⟨hb, hr, hs⟩ := h
      rcases pickLast_spec hpick with ⟨hl, hq, hpost⟩
      subst hb
      refine ⟨qualifies_healthy hq, qualifies_not_excluded hq,
        pre, b₀, post, hl, hq, hpost, rfl, ?_, ?_⟩
      · rw [← hs]
      · rw [← hs]
    · intro _
      exact ⟨_, _, _, heq⟩

/-- Witness for C2: the backend selected from the concrete state is healthy and
not excluded. -/
theorem routeOnce_selects_tail_first_witness :
    exChosen.health.status = BackendStatus.Healthy ∧
      exChosen.addr ∉ ([] : List String) :=
  ⟨((@routeOnce_selects_tail_first exState [] rfl).1 exChosen false
      (routeOnce exState []).2.2 (by decide)).1,
   ((@routeOnce_selects_tail_first exState [] rfl).1 exChosen false
      (routeOnce exState []).2.2 (by decide)).2.1⟩

/-- C10: `ConnCount` is exactly the total number of attached connections, and a
successful `Next` that has not been finished yet bumps the chosen backend's
`connScore` while leaving `ConnCount` and the registered connections
unchanged. -/
theorem connCount_total {s : RouterState} (ex : List String) :
    ConnCount s = (s.backends.map (fun b => b.connList.length)).sum ∧
    ∀ b r s', routeOnce s ex = (.found b, r, s') →
      ConnCount s' = ConnCount s ∧ s'.conns = s.conns ∧
      ∃ pre b₀ post, s.backends = pre ++ b₀ :: post ∧
        b = { b₀ with connScore := b₀.connScore + 1 } := by
  refine ⟨ConnCount_eq_sum s, ?_⟩
  intro b r s' h
  rcases routeOnce_cases s ex with ⟨e, he, heq⟩ | ⟨_, hpick, heq⟩ |
    ⟨pre, b₀, post, _, hpick, heq⟩
  · rw [heq] at h
    cases h
  · rw [heq] at h
    cases h
  · rw [heq] at h
    simp only [Prod.mk.injEq, RouteResult.found.injEq] at h
    obtain ⟨hb, hr, hs⟩ := h
    rcases pickLast_spec hpick with ⟨hl, hq, hpost⟩
    have hperm := adjustAt_perm pre { b₀ with connScore := b₀.connScore + 1 } post
    refine ⟨?_, by rw [← hs], pre, b₀, post, hl, hb.symm⟩
    rw [ConnCount_eq_sum, ConnCount_eq_sum, ← hs, hl]
    have hsum := (hperm.map (fun b => b.connList.length)).sum_eq
    calc ((adjustAt pre { b₀ with connScore := b₀.connScore + 1 } post).map
            (fun b => b.connList.length)).sum
        = ((pre ++ { b₀ with connScore := b₀.connScore + 1 } :: post).map
            (fun b => b.connList.length)).sum := hsum
      _ = ((pre ++ b₀ :: post).map (fun b => b.connList.length)).sum := by
          simp

/-- Witness for C10: one selection on the concrete state leaves `ConnCount`
unchanged. -/
theorem connCount_total_witness :
    ConnCount (routeOnce exState []).2.2 = ConnCount exState :=
  ((@connCount_total exState []).2 exChosen false
    (routeOnce exState []).2.2 (by decide)).1

/-- C9: after a successful selection, finishing with `succeed = false` rolls the
`connScore` reservation back and re-adjusts, so the backend list returns to a
permutation of its pre-`Next` value and every address maps to exactly the
wrapper (hence the score) it had before the call pair; the registered
connections are untouched. -/
theorem next_finish_false_roundtrip {s : RouterState} (ex : List String)
    {b : BackendWrapper} {r : Bool} {s1 : RouterState} (c : Nat)
    (hinv : Inv s) (h : routeOnce s ex = (.found b, r, s1)) :
    (onCreateConn s1 b.addr c false).backends.Perm s.backends ∧
    (∀ a, wrapperAt (onCreateConn s1 b.addr c false) a = wrapperAt s a) ∧
    (onCreateConn s1 b.addr c false).conns = s.conns := by
  rcases routeOnce_cases s ex with ⟨e, he, heq⟩ | ⟨_, hpick, heq⟩ |
    ⟨pre, b₀, post, _, hpick, heq⟩
  · rw [heq] at h; cases h
  · rw [heq] at h; cases h
  · rw [heq] at h
    simp only [Prod.mk.injEq, RouteResult.found.injEq] at h
    obtain ⟨hb, hr, hs⟩ := h
    subst hb
    rcases pickLast_spec hpick with ⟨hl, hq, _⟩
    have hinv1 : Inv s1 := by
      have h0 := inv_routeOnce ex hinv
      rw [heq] at h0
      simp only [] at h0
      exact hs ▸ h0
    have haddr1 : AddrNodup s1 := hinv1.1.2.1
    have huid1 : UidNodup s1 := hinv1.1.2.2.1
    obtain ⟨pre2, post2, hadj, hrest, _, _⟩ :=
      adjustAt_decomp pre { b₀ with connScore := b₀.connScore + 1 } post
    have hl1 : s1.backends =
        pre2 ++ { b₀ with connScore := b₀.connScore + 1 } :: post2 := by
      rw [← hs]
      exact hadj
    have hmemb : ({ b₀ with connScore := b₀.connScore + 1 } : BackendWrapper) ∈
        s1.backends := by
      rw [hl1]
      exact List.mem_append.mpr (Or.inr (List.mem_cons_self _ _))
    have hmid := middle_uid_ne hl1 huid1
    have hsp1 : splitByUid s1.backends
        ({ b₀ with connScore := b₀.connScore + 1 } : BackendWrapper).uid =
        some (pre2, { b₀ with connScore := b₀.connScore + 1 }, post2) := by
      rw [hl1]
      exact splitByUid_middle rfl
        (fun x hx => hmid x (List.mem_append.mpr (Or.inl hx)))
    have hfin := onCreateConn_false_eq hmemb haddr1 c
    have hb0mem : b₀ ∈ s.backends := by
      rw [hl]
      exact List.mem_append.mpr (Or.inr (List.mem_cons_self _ _))
    have hnb0 : removeBackendIfEmpty b₀ = false := hinv.2 b₀ hb0mem
    have hfb : ({ ({ b₀ with connScore := b₀.connScore + 1 }) with connScore :=
        ({ b₀ with connScore := b₀.connScore + 1 } : BackendWrapper).connScore - 1 }) = b₀ :=
      decr_incr_cancel b₀
    have hbacks : (onCreateConn s1
        ({ b₀ with connScore := b₀.connScore + 1 } : BackendWrapper).addr c false).backends =
        adjustAt pre2 b₀ post2 := by
      rw [hfin, updateAdjust_split_eq _ _ hsp1]
      show adjustBackendList pre2
        ({ ({ b₀ with connScore := b₀.connScore + 1 }) with connScore :=
          ({ b₀ with connScore := b₀.connScore + 1 } : BackendWrapper).connScore - 1 })
        post2 true = adjustAt pre2 b₀ post2
      rw [hfb]
      rcases adjustBackendList_cases pre2 b₀ post2 true with ⟨_, _, hrm⟩ | ⟨he2, _⟩
      · rw [hnb0] at hrm; cases hrm
      · exact he2
    have hperm : (onCreateConn s1
        ({ b₀ with connScore := b₀.connScore + 1 } : BackendWrapper).addr c
          false).backends.Perm s.backends := by
      rw [hbacks, hl]
      refine (adjustAt_perm pre2 b₀ post2).trans ?_
      refine List.perm_middle.trans ?_
      rw [hrest]
      exact List.perm_middle.symm
    have hinvf := inv_onCreateConn
      ({ b₀ with connScore := b₀.connScore + 1 } : BackendWrapper).addr c false hinv1
    refine ⟨hperm, fun a => wrapperAt_congr hperm hinvf.1.2.1 a, ?_⟩
    rw [hfin, (updateAdjust_fields _ _ _ _).1, ← hs]

/-- Witness for C9 at the concrete state: one `Next` then `Finish(9, false)`
restores the backend list up to permutation. -/
theorem next_finish_false_roundtrip_witness :
    (onCreateConn (routeOnce exState []).2.2 exChosen.addr 9 false).backends.Perm
      exState.backends :=
  (@next_finish_false_roundtrip exState [] exChosen false (routeOnce exState []).2.2 9
    (inv_reachable (Relation.ReflTransGen.single (Step.health initialRouter exSnapshot)))
    (by decide)).1

/-- C8 as stated is refuted by the code: without any prior `Next`/`Finish` the
connection is unregistered, the type assertion on the stored conn wrapper panics
(modelled: no post-state exists), and no nil error is returned. -/
theorem onConnClosed_unregistered_counterexample :
    OnConnClosed exState "ghost" 1 = none ∧
    (∀ x ∈ exState.backends, x.addr ≠ "ghost") := by
  decide

/-- C8 amended: for a connection that was registered by a successful `Finish`
and carries no in-flight redirect, `OnConnClosed` on an unregistered address
returns normally; the defensive `CannotConnect` wrapper inserted by
`ensureBackend` is mutated into an empty unhealthy wrapper and removed again by
the final adjust, so the backend list and the conn store are exactly as
before. -/
theorem onConnClosed_unknown_addr {s : RouterState} {c : Nat} {info : ConnInfo}
    {ghost : String} (hinv : Inv s)
    (hreg : getConn s.conns c = some info) (hrd : info.redirecting = none)
    (hunknown : ∀ x ∈ s.backends, x.addr ≠ ghost) :
    (∃ w ∈ (ensureBackend s ghost true).1.backends,
        w.addr = ghost ∧ w.health.status = BackendStatus.CannotConnect) ∧
    ∃ s', OnConnClosed s ghost c = some s' ∧
      s'.backends = s.backends ∧ s'.conns = s.conns := by
  obtain ⟨hbase, hnemp⟩ := hinv
  obtain ⟨hbase1, hconns1, hn1, ⟨w, hw, hwu, hwa⟩, hmem1⟩ := base_ensure ghost true hbase
  have hwfresh : w = freshWrapper s.nextUid ghost := by
    rcases hmem1 w hw with hws | ⟨he2, _⟩
    · exact absurd hwa (hunknown w hws)
    · exact he2
  refine ⟨⟨w, hw, hwa, by rw [hwfresh]; rfl⟩, ?_⟩
  exact onConnClosed_ghost_spec hbase.2.2.2.1
    (lookupBackend_none true hunknown) hreg hrd

/-- Witness for the amended C8: closing conn 7 (registered by the concrete
`Next`/`Finish` pair) against the unknown address "ghost" succeeds and leaves
the backend list unchanged. -/
theorem onConnClosed_unknown_addr_witness :
    ∃ s', OnConnClosed exRouted "ghost" 7 = some s' ∧
      s'.backends = exRouted.backends ∧ s'.conns = exRouted.conns :=
  (@onConnClosed_unknown_addr exRouted 7 ⟨ConnPhase.NotRedirected, 0, none⟩ "ghost"
    (inv_reachable (Relation.ReflTransGen.tail (Relation.ReflTransGen.tail
      (Relation.ReflTransGen.single (Step.health initialRouter exSnapshot))
      (Step.next exState [])) (Step.finish (routeOnce exState []).2.2 "b" 7 true)))
    (by decide) rfl (by decide)).2

/-- C6 as stated is refuted by the code: a snapshot entry for an unknown address
with `SchemaOutdated` status (not Healthy) is inserted anyway — the guard only
skips `CannotConnect`. -/
theorem unknown_backend_insert_counterexample :
    ∃ w ∈ (updateBackendHealth initialRouter
        ⟨none, [("x", ⟨BackendStatus.SchemaOutdated, "", none⟩)]⟩).backends,
      w.addr = "x" ∧ w.health.status = BackendStatus.SchemaOutdated := by
  decide

/-- C6 amended: for an error-free snapshot containing exactly one entry for an
address that is not currently registered, a fresh wrapper (zero score, empty
conn list, carrying the entry's health) is inserted iff the entry's status is
not `CannotConnect`; a `CannotConnect` entry for an unknown address is
skipped. -/
theorem unknown_backend_insert_iff {s : RouterState} {hr : HealthResult}
    {l₁ l₂ : List (String × BackendHealth)} {a : String} {hh : BackendHealth}
    (hinv : Inv s) (herr : hr.err = none)
    (hsplit : hr.backends = l₁ ++ (a, hh) :: l₂)
    (h1 : ∀ e ∈ l₁, e.1 ≠ a) (h2 : ∀ e ∈ l₂, e.1 ≠ a)
    (hnew : ∀ x ∈ s.backends, x.addr ≠ a) :
    (hh.status ≠ BackendStatus.CannotConnect →
      ∃ u, wrapperAt (updateBackendHealth s hr) a = some ⟨u, a, hh, [], 0⟩) ∧
    (hh.status = BackendStatus.CannotConnect →
      wrapperAt (updateBackendHealth s hr) a = none) := by
  have hred : wrapperAt (updateBackendHealth s hr) a =
      wrapperAt ((hr.backends ++ syntheticEntries s.backends
        (hr.backends.map Prod.fst)).foldl healthStep
          ({ s with observeError := none }, "")).1 a := by
    rw [updateBackendHealth, herr]
    simp only []
    by_cases hlen : ((hr.backends ++ syntheticEntries s.backends
        (hr.backends.map Prod.fst)).foldl healthStep
          ({ s with observeError := none }, "")).2.length > 0
    · rw [if_pos hlen]
      rfl
    · rw [if_neg hlen]
  have hsyn : ∀ e ∈ syntheticEntries s.backends (hr.backends.map Prod.fst), e.1 ≠ a := by
    intro e he
    rcases syntheticEntries_keys he with ⟨b, hb, hba⟩
    rw [hba]
    exact hnew b hb
  have hentries : hr.backends ++ syntheticEntries s.backends (hr.backends.map Prod.fst) =
      l₁ ++ (a, hh) :: (l₂ ++ syntheticEntries s.backends (hr.backends.map Prod.fst)) := by
    rw [hsplit, List.append_assoc]
    rfl
  have hinv0 : Inv ({ s with observeError := none } : RouterState) := by
    obtain ⟨⟨hsorted, haddr, huid, hfresh, hrbf, hrbc⟩, hnemp⟩ := hinv
    exact ⟨⟨hsorted, haddr, huid, hfresh, hrbf, hrbc⟩, hnemp⟩
  have hinvl1 : Inv (l₁.foldl healthStep ({ s with observeError := none }, "")).1 :=
    inv_foldl_healthStep l₁ _ hinv0
  have hstep1 : wrapperAt (l₁.foldl healthStep ({ s with observeError := none }, "")).1 a =
      none := by
    rw [wrapperAt_foldl_other a l₁ h1 _ hinv0]
    exact wrapperAt_eq_none (fun x hx => hnew x hx)
  have hstepa : wrapperAt (applyHealth
      (l₁.foldl healthStep ({ s with observeError := none }, "")).1 a hh).1 a =
      (if hh.status ≠ BackendStatus.CannotConnect then
        some ⟨(l₁.foldl healthStep ({ s with observeError := none }, "")).1.nextUid,
          a, hh, [], 0⟩ else none) :=
    wrapperAt_applyHealth_insert hinvl1 hstep1
  have hinva2 : Inv (healthStep
      (l₁.foldl healthStep ({ s with observeError := none }, "")) (a, hh)).1 :=
    inv_applyHealth a hh hinvl1
  have hrest : ∀ e ∈ l₂ ++ syntheticEntries s.backends (hr.backends.map Prod.fst),
      e.1 ≠ a := by
    intro e he
    rcases List.mem_append.mp he with h | h
    · exact h2 e h
    · exact hsyn e h
  have hfull : wrapperAt (updateBackendHealth s hr) a =
      wrapperAt (applyHealth
        (l₁.foldl healthStep ({ s with observeError := none }, "")).1 a hh).1 a := by
    rw [hred, hentries, List.foldl_append, List.foldl_cons,
      wrapperAt_foldl_other a _ hrest _ hinva2]
    rfl
  constructor
  · intro hst
    refine ⟨(l₁.foldl healthStep ({ s with observeError := none }, "")).1.nextUid, ?_⟩
    rw [hfull, hstepa, if_pos hst]
  · intro hst
    rw [hfull, hstepa, if_neg (fun hne => hne hst)]

/-- Witness for the amended C6: the `SchemaOutdated` entry for the unknown
address "x" is inserted with zero score. -/
theorem unknown_backend_insert_iff_witness :
    ∃ u, wrapperAt (updateBackendHealth initialRouter
        ⟨none, [("x", ⟨BackendStatus.SchemaOutdated, "", none⟩)]⟩) "x" =
      some ⟨u, "x", ⟨BackendStatus.SchemaOutdated, "", none⟩, [], 0⟩ :=
  (@unknown_backend_insert_iff initialRouter
    ⟨none, [("x", ⟨BackendStatus.SchemaOutdated, "", none⟩)]⟩
    [] [] "x" ⟨BackendStatus.SchemaOutdated, "", none⟩
    inv_initialRouter rfl rfl (by decide) (by decide) (by decide)).1 (by decide)

/-- C5: closing a registered connection: when a redirect is in flight
(`redirecting = some (ru, raddr)` with the target still listed), the reserved
score is released on the redirect target — not on the current owner, whose
`connScore` is untouched — the redirect mark is cleared and the connection is
removed from the owner's conn list; with no redirect in flight the owner's own
`connScore` is decremented together with the removal. -/
theorem onConnClosed_spec {s : RouterState} {addr : String} {c : Nat}
    {O : BackendWrapper} {info : ConnInfo}
    (hinv : Inv s)
    (hOwn : wrapperAt s addr = some O)
    (hreg : getConn s.conns c = some info) :
    (∀ ru raddr T, info.redirecting = some (ru, raddr) →
      T ∈ s.backends → T.uid = ru → ru ≠ O.uid →
      removeBackendIfEmpty { T with connScore := T.connScore - 1 } = false →
      removeBackendIfEmpty { O with connList := O.connList.erase c } = false →
      ∃ s', OnConnClosed s addr c = some s' ∧
        wrapperAt s' raddr = some { T with connScore := T.connScore - 1 } ∧
        wrapperAt s' addr = some { O with connList := O.connList.erase c } ∧
        getConn s'.conns c = some { info with redirecting := none }) ∧
    (info.redirecting = none →
      removeBackendIfEmpty
        { O with connList := O.connList.erase c, connScore := O.connScore - 1 } = false →
      ∃ s', OnConnClosed s addr c = some s' ∧
        wrapperAt s' addr =
          some { O with connList := O.connList.erase c, connScore := O.connScore - 1 } ∧
        (∀ a, addr ≠ a → wrapperAt s' a = wrapperAt s a) ∧
        s'.conns = s.conns) := by
  obtain ⟨hOmem, hOaddr⟩ := wrapperAt_spec hOwn
  obtain ⟨⟨hsorted, haddr, huid, hfresh, hrbf, hrbc⟩, hnemp⟩ := hinv
  have hensO : ensureBackend s addr true = (s, O.uid) := by
    have h0 : lookupBackend s.backends O.addr true = some O.uid :=
      lookupBackend_of_mem true hOmem haddr
    rw [hOaddr] at h0
    rw [ensureBackend, h0]
  constructor
  · intro ru raddr T hrd hTmem hTu hneq hTkeep hOkeep
    have hentry : (c, info) ∈ s.conns := getConn_mem hreg
    have hTaddr : T.addr = raddr := hrbc (c, info) hentry ru raddr hrd T hTmem hTu
    have hTO : T.addr ≠ O.addr :=
      fun he => hneq (by rw [← hTu, addr_unique haddr hTmem hOmem he])
    obtain ⟨preT, postT, hspT0, hlT⟩ := splitByUid_of_mem hTmem huid
    have hspT : splitByUid s.backends ru = some (preT, T, postT) := by
      rw [← hTu]
      exact hspT0
    rcases updateNoAdjust_cases s ru (fun b => { b with connScore := b.connScore - 1 }) with
      ⟨hn, _⟩ | ⟨preN, bN, postN, hspN, hlN, hbNu, hbb⟩
    · rw [hspT] at hn
      cases hn
    · rw [hspT] at hspN
      cases hspN
      have haddrN : ((updateNoAdjust s ru
          (fun b => { b with connScore := b.connScore - 1 })).backends.map
            (fun x => x.addr)).Nodup := by
        rw [hbb]
        have hmapeq : ((preT ++ { T with connScore := T.connScore - 1 } :: postT).map
            (fun x => x.addr)) = ((preT ++ T :: postT).map (fun x => x.addr)) := by
          simp
        rw [hmapeq, ← hlT]
        exact haddr
      have hdTmem : ({ T with connScore := T.connScore - 1 } : BackendWrapper) ∈
          (updateNoAdjust s ru
            (fun b => { b with connScore := b.connScore - 1 })).backends := by
        rw [hbb]
        exact List.mem_append.mpr (Or.inr (List.mem_cons_self _ _))
      have hlkN : lookupBackend (updateNoAdjust s ru
          (fun b => { b with connScore := b.connScore - 1 })).backends raddr true =
          some ru := by
        have h0 := lookupBackend_of_mem true hdTmem haddrN
        simp only [hTaddr, hTu] at h0
        exact h0
      have heqA : OnConnClosed s addr c =
          some (removeConnOp (adjustOnly
            ({ (updateNoAdjust s ru (fun b => { b with connScore := b.connScore - 1 })) with
                conns := setConn (updateNoAdjust s ru
                  (fun b => { b with connScore := b.connScore - 1 })).conns c
                  { info with redirecting := none } } : RouterState) ru true) O.uid c) := by
        rw [OnConnClosed, hensO]
        simp only []
        rw [hreg]
        simp only [hrd]
        rw [hlkN]
      rw [heqA, adjustOnly, updateAdjust_conns_irrel, updateAdjust_updateNoAdjust s ru
        (fun b => { b with connScore := b.connScore - 1 }) id true (fun x => rfl),
        removeConnOp, updateAdjust_conns_irrel]
      have hviewT := wrapperAt_updateAdjust
        (fun b => id ({ b with connScore := b.connScore - 1 } : BackendWrapper)) true
        hspT rfl haddr
      have hbaseY := @base_updateAdjust s ru
        (fun b => id ({ b with connScore := b.connScore - 1 } : BackendWrapper)) true
        (fun b => rfl) (fun b => rfl) ⟨hsorted, haddr, huid, hfresh, hrbf, hrbc⟩
      have hYO : wrapperAt (updateAdjust s ru
          (fun b => id ({ b with connScore := b.connScore - 1 } : BackendWrapper)) true)
          O.addr = some O := by
        rw [hviewT.1 O.addr hTO, hOaddr]
        exact hOwn
      obtain ⟨preY, postY, hspY, hlY⟩ :=
        splitByUid_of_mem (wrapperAt_spec hYO).1 hbaseY.1.2.2.1
      have hviewO := wrapperAt_updateAdjust
        (fun b => { b with connList := b.connList.erase c }) true hspY rfl hbaseY.1.2.1
      have hOr : O.addr ≠ raddr := fun he => hTO (by rw [hTaddr, ← he])
      have hfin1 : wrapperAt (updateAdjust (updateAdjust s ru
          (fun b => id ({ b with connScore := b.connScore - 1 } : BackendWrapper)) true)
          O.uid (fun b => { b with connList := b.connList.erase c }) true) raddr =
          some ({ T with connScore := T.connScore - 1 } : BackendWrapper) := by
        rw [hviewO.1 raddr hOr, ← hTaddr]
        exact hviewT.2.2 (fun _ => hTkeep)
      have hfin2 : wrapperAt (updateAdjust (updateAdjust s ru
          (fun b => id ({ b with connScore := b.connScore - 1 } : BackendWrapper)) true)
          O.uid (fun b => { b with connList := b.connList.erase c }) true) O.addr =
          some ({ O with connList := O.connList.erase c } : BackendWrapper) :=
        hviewO.2.2 (fun _ => hOkeep)
      refine ⟨_, rfl, hfin1, ?_, getConn_setConn_self _ c _⟩
      rw [← hOaddr]
      exact hfin2
  · intro hrd hkeep
    have heq : OnConnClosed s addr c =
        some (removeConnOp (updateNoAdjust s O.uid
          (fun b => { b with connScore := b.connScore - 1 })) O.uid c) := by
      rw [OnConnClosed, hensO]
      simp only []
      rw [hreg]
      simp only [hrd]
    rw [heq, removeConnOp, updateAdjust_updateNoAdjust s O.uid
      (fun b => { b with connScore := b.connScore - 1 })
      (fun b => { b with connList := b.connList.erase c }) true (fun x => rfl)]
    obtain ⟨preO, postO, hspO, hlO⟩ := splitByUid_of_mem hOmem huid
    have hview := wrapperAt_updateAdjust
      (fun b => { ({ b with connScore := b.connScore - 1 } : BackendWrapper) with
        connList :=
          ({ b with connScore := b.connScore - 1 } : BackendWrapper).connList.erase c })
      true hspO rfl haddr
    refine ⟨_, rfl, ?_, ?_, (updateAdjust_fields _ _ _ _).1⟩
    · rw [← hOaddr]
      exact hview.2.2 (fun _ => hkeep)
    · intro a ha
      exact hview.1 a (by rw [hOaddr]; exact ha)

/-- Witness for C5 at the concrete redirect-in-flight state: closing conn 1
releases the reserved score on "b", keeps the owner's score, clears the mark
and removes the connection from "a". -/
theorem onConnClosed_spec_witness :
    ∃ s', OnConnClosed exRedir "a" 1 = some s' ∧
      wrapperAt s' "b" = some ⟨1, "b", exHealthy, [], 0⟩ ∧
      wrapperAt s' "a" = some ⟨0, "a", exBadHealth, [2], 1⟩ ∧
      getConn s'.conns 1 = some ⟨ConnPhase.RedirectNotify, 100, none⟩ :=
  (@onConnClosed_spec exRedir "a" 1 ⟨0, "a", exBadHealth, [1, 2], 1⟩
      ⟨ConnPhase.RedirectNotify, 100, some (1, "b")⟩
      (inv_reachable reachable_exRedir) (by decide) (by decide)).1
    1 "b" ⟨1, "b", exHealthy, [], 1⟩ rfl (by decide) rfl (by decide) (by decide) (by decide)

/-- C3: a rebalance step shifts one unit of `connScore` from the busiest to the
idlest backend and marks one of the busiest backend's connections as
redirecting; `OnRedirectSucceed` then moves that connection from the source's
conn list to the target's, sets phase `RedirectEnd` and preserves the total
number of attached connections, while `OnRedirectFail` restores every address
to exactly its pre-rebalance wrapper (all scores included) and sets phase
`RedirectFail`. -/
theorem redirect_roundtrip {s : RouterState} {cur : Nat} {src tgt : BackendWrapper}
    {c : Nat}
    (hinv : Inv s)
    (hbz : s.backends.find? (fun b => decide (0 < b.connList.length)) = some src)
    (hil : s.backends.getLast? = some tgt)
    (hthr : ¬ (5 * score src < 6 * (score tgt + 1)))
    (hcn : src.connList.find? (fun x => eligibleConn s.conns x cur) = some c)
    (hne : tgt.uid ≠ src.uid)
    (hnod : src.connList.Nodup) :
    ∃ s1, rebalanceStep s cur = some s1 ∧
      (∃ s2, onRedirectFinished s1 src.addr tgt.addr c true = some s2 ∧
        (∃ w, wrapperAt s2 tgt.addr = some w ∧ c ∈ w.connList) ∧
        (∀ w, wrapperAt s2 src.addr = some w → c ∉ w.connList) ∧
        getConn s2.conns c = some ⟨ConnPhase.RedirectEnd, cur, none⟩ ∧
        ConnCount s2 = ConnCount s) ∧
      (∃ s3, onRedirectFinished s1 src.addr tgt.addr c false = some s3 ∧
        (∀ a, wrapperAt s3 a = wrapperAt s a) ∧
        getConn s3.conns c = some ⟨ConnPhase.RedirectFail, cur, none⟩) := by
  obtain ⟨⟨hsorted, haddr, huid, hfresh, hrbf, hrbc⟩, hnemp⟩ := hinv
  have hsrcmem : src ∈ s.backends := List.mem_of_find?_eq_some hbz
  have htgtmem : tgt ∈ s.backends := List.mem_of_mem_getLast? hil
  have hcmem : c ∈ src.connList := List.mem_of_find?_eq_some hcn
  have hsrcne : src.connList ≠ [] := List.ne_nil_of_mem hcmem
  have htgtaddr : tgt.addr ≠ src.addr :=
    fun he => hne (by rw [addr_unique haddr htgtmem hsrcmem he])
  have hsrcaddr_ne : src.addr ≠ tgt.addr := fun he => htgtaddr he.symm
  obtain ⟨preS, postS, hspS, hlS⟩ := splitByUid_of_mem hsrcmem huid
  have hviewA := wrapperAt_updateAdjust
    (fun b => { b with connScore := b.connScore - 1 }) true hspS rfl haddr
  have hdecKeep : removeBackendIfEmpty
      ({ src with connScore := src.connScore - 1 } : BackendWrapper) = false :=
    removeIfEmpty_false_of_conns hsrcne
  have hA3 : wrapperAt (updateAdjust s src.uid
      (fun b => { b with connScore := b.connScore - 1 }) true) src.addr =
      some ({ src with connScore := src.connScore - 1 } : BackendWrapper) :=
    hviewA.2.2 (fun _ => hdecKeep)
  have hAinv : Inv (updateAdjust s src.uid
      (fun b => { b with connScore := b.connScore - 1 }) true) :=
    inv_updateAdjust _ true (fun b => rfl) (fun b => rfl)
      ⟨⟨hsorted, haddr, huid, hfresh, hrbf, hrbc⟩, hnemp⟩ (Or.inl rfl)
  have hAtgt : wrapperAt (updateAdjust s src.uid
      (fun b => { b with connScore := b.connScore - 1 }) true) tgt.addr = some tgt := by
    rw [hviewA.1 tgt.addr hsrcaddr_ne]
    exact wrapperAt_of_mem htgtmem haddr
  obtain ⟨preA, postA, hspA, hlA⟩ :=
    splitByUid_of_mem (wrapperAt_spec hAtgt).1 hAinv.1.2.2.1
  have hviewB := wrapperAt_updateAdjust
    (fun b => { b with connScore := b.connScore + 1 }) false hspA rfl hAinv.1.2.1
  have hB3 : wrapperAt (updateAdjust (updateAdjust s src.uid
      (fun b => { b with connScore := b.connScore - 1 }) true) tgt.uid
      (fun b => { b with connScore := b.connScore + 1 }) false) tgt.addr =
      some ({ tgt with connScore := tgt.connScore + 1 } : BackendWrapper) :=
    hviewB.2.2 (fun h => Bool.noConfusion h)
  have hstep : rebalanceStep s cur = some
      ({ (updateAdjust (updateAdjust s src.uid
          (fun b => { b with connScore := b.connScore - 1 }) true) tgt.uid
          (fun b => { b with connScore := b.connScore + 1 }) false) with
        conns := setConn (updateAdjust (updateAdjust s src.uid
          (fun b => { b with connScore := b.connScore - 1 }) true) tgt.uid
          (fun b => { b with connScore := b.connScore + 1 }) false).conns c
          ⟨ConnPhase.RedirectNotify, cur, some (tgt.uid, tgt.addr)⟩ } : RouterState) := by
    rw [rebalanceStep, hbz, hil]
    simp only []
    rw [if_neg hthr, hcn]
  have hInv1 := inv_rebalanceStep cur hstep
    ⟨⟨hsorted, haddr, huid, hfresh, hrbf, hrbc⟩, hnemp⟩
  have hS1 : wrapperAt (updateAdjust (updateAdjust s src.uid
      (fun b => { b with connScore := b.connScore - 1 }) true) tgt.uid
      (fun b => { b with connScore := b.connScore + 1 }) false) src.addr =
      some ({ src with connScore := src.connScore - 1 } : BackendWrapper) := by
    rw [hviewB.1 src.addr htgtaddr]
    exact hA3
  have hgc1 : getConn (setConn (updateAdjust (updateAdjust s src.uid
      (fun b => { b with connScore := b.connScore - 1 }) true) tgt.uid
      (fun b => { b with connScore := b.connScore + 1 }) false).conns c
      ⟨ConnPhase.RedirectNotify, cur, some (tgt.uid, tgt.addr)⟩) c =
      some ⟨ConnPhase.RedirectNotify, cur, some (tgt.uid, tgt.addr)⟩ :=
    getConn_setConn_self _ c _
  refine ⟨_, hstep, ?_, ?_⟩
  · obtain ⟨s2, heq2, hb2, hc2, hd2, he2⟩ :=
      onRedirectSucceed_prepared hInv1.1 hS1 hB3 hsrcaddr_ne hgc1
    refine ⟨s2, heq2, ⟨_, hb2, ?_⟩, ?_, hd2, ?_⟩
    · exact List.mem_append.mpr (Or.inr (List.mem_singleton_self c))
    · intro w hw
      rw [hc2 w hw]
      exact List.Nodup.not_mem_erase hnod
    · rw [ConnCount_eq_sum, ConnCount_eq_sum]
      have e3 := sum_updateAdjust
        (fun b => { b with connScore := b.connScore - 1 }) true hspS
      have e4 := sum_updateAdjust
        (fun b => { b with connScore := b.connScore + 1 }) false hspA
      simp only [] at e3 e4 he2
      have hlen1 : (src.connList.erase c).length = src.connList.length - 1 :=
        List.length_erase_of_mem hcmem
      have hlen0 : 0 < src.connList.length := List.length_pos.mpr hsrcne
      have hlen2 : (tgt.connList ++ [c]).length = tgt.connList.length + 1 := by simp
      omega
  · have hTkeep : removeBackendIfEmpty
        ({ ({ tgt with connScore := tgt.connScore + 1 }) with connScore :=
          ({ tgt with connScore := tgt.connScore + 1 } : BackendWrapper).connScore - 1 }
          : BackendWrapper) = false := by
      rw [decr_incr_cancel tgt]
      exact hnemp tgt htgtmem
    obtain ⟨s3, heq3, ha3, hb3, hc3, hd3⟩ :=
      onRedirectFail_prepared hInv1.1 hS1 hB3 hsrcaddr_ne hgc1 hTkeep
    have ha3' : wrapperAt s3 src.addr = some src := by
      rw [incr_decr_cancel src] at ha3
      exact ha3
    have hb3' : wrapperAt s3 tgt.addr = some tgt := by
      rw [decr_incr_cancel tgt] at hb3
      exact hb3
    refine ⟨s3, heq3, ?_, hd3⟩
    intro a
    by_cases hsa : src.addr = a
    · rw [← hsa, ha3', wrapperAt_of_mem hsrcmem haddr]
    · by_cases hta : tgt.addr = a
      · rw [← hta, hb3', wrapperAt_of_mem htgtmem haddr]
      · rw [hc3 a hsa hta]
        have h5 : wrapperAt (updateAdjust (updateAdjust s src.uid
            (fun b => { b with connScore := b.connScore - 1 }) true) tgt.uid
            (fun b => { b with connScore := b.connScore + 1 }) false) a =
            wrapperAt s a := by
          rw [hviewB.1 a hta, hviewA.1 a hsa]
        exact h5

/-- Witness for C3 at the concrete skewed state: rebalancing moves conn 1 from
"a" toward "b"; a successful redirect attaches it to "b" with `ConnCount`
preserved, a failed one restores the pre-rebalance wrappers. -/
theorem redirect_roundtrip_witness :
    ∃ s1, rebalanceStep exSkewed 100 = some s1 ∧
      (∃ s2, onRedirectFinished s1 "a" "b" 1 true = some s2 ∧
        (∃ w, wrapperAt s2 "b" = some w ∧ 1 ∈ w.connList) ∧
        (∀ w, wrapperAt s2 "a" = some w → 1 ∉ w.connList) ∧
        getConn s2.conns 1 = some ⟨ConnPhase.RedirectEnd, 100, none⟩ ∧
        ConnCount s2 = ConnCount exSkewed) ∧
      (∃ s3, onRedirectFinished s1 "a" "b" 1 false = some s3 ∧
        (∀ a, wrapperAt s3 a = wrapperAt exSkewed a) ∧
        getConn s3.conns 1 = some ⟨ConnPhase.RedirectFail, 100, none⟩) :=
  @redirect_roundtrip exSkewed 100 ⟨0, "a", exBadHealth, [1, 2], 2⟩
    ⟨1, "b", exHealthy, [], 0⟩ 1
    (inv_reachable reachable_exSkewed) (by decide) (by decide) (by decide) (by decide)
    (by decide) (by decide)

end TiproxyRouter
